import Mathlib

/-! # Coffee machine: inventory, reservation and refill

A shallow embedding of `internal/models/machine.go` (the `CoffeeMachine` type and
its methods) and of the serving path of `internal/serve/cli.go`, followed by the
properties established about them.

Conventions of the embedding:

* A Go `map[K]V` is an association list `List (K × V)`; the order of the list
  stands for one iteration order of the map.  The operations below assume, but
  do not require, that keys are pairwise distinct (`GoMap.WF`); separate lemmas
  show that they keep keys distinct.
* A Go `uint` is a natural number below `2 ^ 64`; subtraction wraps explicitly.
* `strings.ToLower` belongs to the Go standard library and is taken as a
  parameter `toLower : String → String` of the operations that call it.
* A returned `error` is an `Option String`: `none` is `nil`, `some msg` is an
  error whose text is `msg`.
* `ServeBeverage` returns with the pour it started still to run: the goroutine is a
  list of statements left to execute (`System.pending`), and the scheduler runs them
  one at a time (`Op.pour`), at any point among the later requests.  The semaphore
  and the check/debit race of two requests are also modelled apart, by step functions
  (`outletStep`, `raceStep`).
-/

namespace Coffee

/-! ## Machine integers -/

/-- Number of values of a Go `uint` on a 64-bit target. -/
def uintMod : Nat := 2 ^ 64

/-- Go `a - b` on `uint`: the difference modulo `2 ^ 64`. -/
def usub (a b : Nat) : Nat := (a + (uintMod - b % uintMod)) % uintMod

/-! ## Go maps -/

/-- A Go map as an association list. -/
abbrev GoMap (κ ν : Type) := List (κ × ν)

namespace GoMap

variable {κ ν : Type} [DecidableEq κ]

/-- The comma-ok read `v, ok := m[k]`: `some v` when `ok`, `none` otherwise. -/
def lookup : GoMap κ ν → κ → Option ν
  | [], _ => none
  | (k', v) :: rest, k => if k' = k then some v else lookup rest k

/-- The plain read `m[k]` on a `uint`-valued map: the zero value when `k` is absent. -/
def get (m : GoMap κ Nat) (k : κ) : Nat := (lookup m k).getD 0

/-- The assignment `m[k] = v`: overwrite the entry of `k`, or create one. -/
def set : GoMap κ ν → κ → ν → GoMap κ ν
  | [], k, v => [(k, v)]
  | (k', v') :: rest, k, v =>
    if k' = k then (k', v) :: rest else (k', v') :: set rest k v

/-- The builtin `delete(m, k)`. -/
def delete (m : GoMap κ ν) (k : κ) : GoMap κ ν := m.filter (fun e => decide (e.1 ≠ k))

/-- The keys of the map, in iteration order. -/
def keys (m : GoMap κ ν) : List κ := m.map Prod.fst

/-- Keys are pairwise distinct, as in every Go map. -/
def WF (m : GoMap κ ν) : Prop := (keys m).Nodup

instance (m : GoMap κ ν) : Decidable (WF m) := by unfold WF; infer_instance

end GoMap

/-! ## Data model (`ingredient.go`, `beverage.go`, `machine.go`) -/

/-- The `Ingredient` struct of `ingredient.go`. -/
structure Ingredient where
  Name : String
deriving DecidableEq

/-- The `Beverage` struct of `beverage.go`. -/
structure Beverage where
  Name : String
  ingredients : GoMap Ingredient Nat
deriving DecidableEq

/-- The `CoffeeMachine` struct of `machine.go`. -/
structure CoffeeMachine where
  NumOutlets : Nat
  Beverages : GoMap String Beverage
  Ingredient : GoMap Coffee.Ingredient Nat
  MaxCapacity : Nat
deriving DecidableEq

/-- Every quantity held by the machine is a `uint`. -/
def InRange (cm : CoffeeMachine) : Prop :=
  cm.MaxCapacity < uintMod ∧ ∀ e ∈ cm.Ingredient, e.2 < uintMod

instance (cm : CoffeeMachine) : Decidable (InRange cm) := by unfold InRange; infer_instance

/-- The function `NewCoffeeMachine`. -/
def NewCoffeeMachine (n : Nat) (maxIngredientCap : Nat) : CoffeeMachine :=
  { NumOutlets := n, Beverages := [], Ingredient := [], MaxCapacity := maxIngredientCap }

/-- The five catalog entries written by `SeedData`, in the order of the source. -/
def seedBeverages : List (String × Beverage) :=
  [ ("ginger tea",
      { Name := "ginger tea",
        ingredients := [(⟨"hot water"⟩, 50), (⟨"hot milk"⟩, 10), (⟨"tea leaves syrup"⟩, 10),
                        (⟨"ginger syrup"⟩, 5), (⟨"sugar syrup"⟩, 10)] }),
    ("elaichi tea",
      { Name := "elaichi tea",
        ingredients := [(⟨"hot water"⟩, 50), (⟨"hot milk"⟩, 10), (⟨"tea leaves syrup"⟩, 10),
                        (⟨"elaichi syrup"⟩, 5), (⟨"sugar syrup"⟩, 10)] }),
    ("coffee",
      { Name := "coffee",
        ingredients := [(⟨"hot water"⟩, 50), (⟨"hot milk"⟩, 10), (⟨"coffee syrup"⟩, 10),
                        (⟨"sugar syrup"⟩, 10)] }),
    ("hot milk", { Name := "hot milk", ingredients := [(⟨"milk"⟩, 50)] }),
    ("hot water", { Name := "hot water", ingredients := [(⟨"water"⟩, 50)] }) ]

/-- The loop closing `SeedData`: every ingredient of every catalog recipe is set to `cap`. -/
def seedInventory (cap : Nat) (bevs : GoMap String Beverage) (inv : GoMap Ingredient Nat) :
    GoMap Ingredient Nat :=
  bevs.foldl
    (fun acc e => e.2.ingredients.foldl (fun acc2 iq => GoMap.set acc2 iq.1 cap) acc) inv

/-- The method `SeedData`. -/
def SeedData (cm : CoffeeMachine) : CoffeeMachine :=
  let bevs := seedBeverages.foldl (fun m e => GoMap.set m e.1 e.2) cm.Beverages
  { cm with Beverages := bevs, Ingredient := seedInventory cm.MaxCapacity bevs cm.Ingredient }

/-- The debit loop of `PourBeverage`: `cm.Ingredient[i] -= q` for each recipe entry. -/
def debit (inv : GoMap Ingredient Nat) (recipe : GoMap Ingredient Nat) : GoMap Ingredient Nat :=
  recipe.foldl (fun acc iq => GoMap.set acc iq.1 (usub (GoMap.get acc iq.1) iq.2)) inv

/-- The method `PourBeverage`: the machine after the debit loop, and the messages sent on the
notification channel, in order.  The flag `delay` only inserts a sleep between the two sends. -/
def PourBeverage (cm : CoffeeMachine) (b : Beverage) (_delay : Bool) :
    CoffeeMachine × List String :=
  ({ cm with Ingredient := debit cm.Ingredient b.ingredients },
   ["Serving " ++ b.Name, "Served " ++ b.Name])

/-- The loop of `CheckIngredients`: the error of the first entry met whose stock is short. -/
def checkLoop (inv : GoMap Ingredient Nat) (bname : String) :
    GoMap Ingredient Nat → Option String
  | [] => none
  | (i, q) :: rest =>
    if GoMap.get inv i < q then
      some ("Not enough " ++ i.Name ++ " to make " ++ bname ++ "\n")
    else checkLoop inv bname rest

/-- The method `CheckIngredients`. -/
def CheckIngredients (cm : CoffeeMachine) (b : Beverage) : Option String :=
  checkLoop cm.Ingredient b.Name b.ingredients

/-- The method `ListBeverages`. -/
def ListBeverages (cm : CoffeeMachine) : GoMap String Beverage := cm.Beverages

/-- The method `Ingredients`. -/
def Ingredients (cm : CoffeeMachine) : GoMap Ingredient Nat := cm.Ingredient

/-- The method `AddIngredient`: the machine afterwards and the returned flag. -/
def AddIngredient (toLower : String → String) (cm : CoffeeMachine) (s : String) :
    CoffeeMachine × Bool :=
  let i : Ingredient := ⟨toLower s⟩
  match GoMap.lookup cm.Ingredient i with
  | some _ => (cm, false)
  | none => ({ cm with Ingredient := GoMap.set cm.Ingredient i cm.MaxCapacity }, true)

/-- The method `RemoveIngredient`: the machine afterwards and the returned flag. -/
def RemoveIngredient (toLower : String → String) (cm : CoffeeMachine) (s : String) :
    CoffeeMachine × Bool :=
  let i : Ingredient := ⟨toLower s⟩
  match GoMap.lookup cm.Ingredient i with
  | none => (cm, false)
  | some _ => ({ cm with Ingredient := GoMap.delete cm.Ingredient i }, true)

/-- The method `RefillIngredient`: the machine afterwards and the returned flag. -/
def RefillIngredient (toLower : String → String) (cm : CoffeeMachine) (s : String) :
    CoffeeMachine × Bool :=
  let i : Ingredient := ⟨toLower s⟩
  match GoMap.lookup cm.Ingredient i with
  | none => (cm, false)
  | some _ => ({ cm with Ingredient := GoMap.set cm.Ingredient i cm.MaxCapacity }, true)

/-- The method `RefillAllIngredients`: every key met by the range loop is set to the capacity. -/
def RefillAllIngredients (cm : CoffeeMachine) : CoffeeMachine :=
  { cm with
    Ingredient :=
      (GoMap.keys cm.Ingredient).foldl (fun acc i => GoMap.set acc i cm.MaxCapacity)
        cm.Ingredient }

/-! ## Serving path (`cli.go`) -/

/-- What one call of `ServeBeverage` leaves behind when it returns. -/
structure ServeOutcome where
  /-- The machine when the call returns; the pour it started has still to run. -/
  machine : CoffeeMachine
  /-- The error returned to the caller. -/
  err : Option String
  /-- The lines written to standard output by `fmt.Println`. -/
  printed : List String
  /-- The beverage whose pour was started by the `go` statement, if any. -/
  started : Option Beverage
  /-- The number of `wg.Add(1)` calls. -/
  wgAdded : Nat
  /-- Whether the call returns; it does not when the send `cli.sem <- 1` blocks for ever. -/
  returned : Bool
deriving DecidableEq

/-- The messages that the pour started by the call sends on the notification channel. -/
def ServeOutcome.sent (o : ServeOutcome) : List String :=
  match o.started with
  | none => []
  | some b => (PourBeverage o.machine b true).2

/-- The part of `ServeBeverage` after the beverage has been selected.  A failed check is
printed and the call returns `nil`.  After a passed check the call adds one to the wait group
and sends on `sem`, a channel of capacity `NumOutlets` that is empty between calls: with no
outlet the send blocks for ever, otherwise the goroutine of the pour is started, the value is
received back from `sem` and the call returns `nil`, the pour still to run. -/
def serveSelected (cm : CoffeeMachine) (b : Beverage) : ServeOutcome :=
  match CheckIngredients cm b with
  | some e =>
    { machine := cm, err := none, printed := [e], started := none, wgAdded := 0,
      returned := true }
  | none =>
    if 0 < cm.NumOutlets then
      { machine := cm, err := none, printed := [], started := some b, wgAdded := 1,
        returned := true }
    else
      { machine := cm, err := none, printed := [], started := none, wgAdded := 1,
        returned := false }

/-- The method `ServeBeverage` for a selected name.  The prompt loop of the source only
leaves with a name of the catalog; a name outside it selects nothing. -/
def ServeBeverage (cm : CoffeeMachine) (name : String) : ServeOutcome :=
  match GoMap.lookup (ListBeverages cm) name with
  | none =>
    { machine := cm, err := none, printed := [], started := none, wgAdded := 0,
      returned := true }
  | some b => serveSelected cm b

/-- The bound on the inventory: the capacity is a `uint`, no stored quantity exceeds it, and
no catalog recipe lists an ingredient twice.  Each request other than a serve keeps it, and
so does a pour that runs right after its check. -/
def Bounded (cm : CoffeeMachine) : Prop :=
  cm.MaxCapacity < uintMod ∧ (∀ e ∈ cm.Ingredient, e.2 ≤ cm.MaxCapacity) ∧
    ∀ nb ∈ cm.Beverages, GoMap.WF nb.2.ingredients

/-- Lower-casing of the ASCII letters, the restriction of `strings.ToLower` to ASCII text;
used to evaluate the operations on concrete names. -/
def asciiLower (s : String) : String := String.mk (s.data.map Char.toLower)

/-- The machine of the tests: `NewCoffeeMachine(5, 1000)` followed by `SeedData`. -/
def newMockMachine : CoffeeMachine := SeedData (NewCoffeeMachine 5 1000)

/-! ## Machines and beverages of the scenarios -/

/-- The beverage of `TestCoffeeMachine_CheckIngredientsNotEnough`: coffee asking for 1010
units of sugar syrup. -/
def sweetCoffee : Beverage :=
  { Name := "coffee",
    ingredients := [(⟨"hot water"⟩, 50), (⟨"hot milk"⟩, 10), (⟨"coffee syrup"⟩, 10),
                    (⟨"sugar syrup"⟩, 1010)] }

/-- The catalog beverage "coffee". -/
def coffee : Beverage :=
  { Name := "coffee",
    ingredients := [(⟨"hot water"⟩, 50), (⟨"hot milk"⟩, 10), (⟨"coffee syrup"⟩, 10),
                    (⟨"sugar syrup"⟩, 10)] }

/-- The catalog beverage "hot milk". -/
def hotMilk : Beverage := { Name := "hot milk", ingredients := [(⟨"milk"⟩, 50)] }

/-- The seeded test machine after `RemoveIngredient("milk")`. -/
def noMilkMachine : CoffeeMachine := (RemoveIngredient asciiLower newMockMachine "milk").1

/-- A machine whose only inventory entry is keyed by a name that is not lower-case. -/
def capitalMachine : CoffeeMachine :=
  { NumOutlets := 1, Beverages := [], Ingredient := [(⟨"Milk"⟩, 0)], MaxCapacity := 1000 }

/-- A beverage whose recipe names its ingredient with a capital letter. -/
def capitalMilk : Beverage := { Name := "milk shake", ingredients := [(⟨"Milk"⟩, 50)] }

/-- `RefillIngredient` called on the name of each ingredient of the recipe of `b`, in turn. -/
def refillRecipe (toLower : String → String) (cm : CoffeeMachine) (b : Beverage) :
    CoffeeMachine :=
  b.ingredients.foldl (fun acc iq => (RefillIngredient toLower acc iq.1.Name).1) cm

/-! ## Low-stock display (`cli.go`) -/

/-- The map `low` built by the first loop of `DisplayLowIngredients`: the entries of the
inventory whose quantity is at most 100. -/
def lowIngredients (cm : CoffeeMachine) : GoMap Ingredient Nat :=
  (Ingredients cm).foldl (fun low e => if e.2 ≤ 100 then GoMap.set low e.1 e.2 else low) []

/-- The method `DisplayLowIngredients`: the pieces written to standard output.  The library
function `strings.ToTitle` is the parameter `toTitle`. -/
def DisplayLowIngredients (toTitle : String → String) (cm : CoffeeMachine) : List String :=
  if (lowIngredients cm).length = 0 then []
  else "Ingredients running low: " ::
    (GoMap.keys (lowIngredients cm)).map (fun l => "\t" ++ toTitle l.Name)

/-- The low set as the doc comment of `DisplayLowIngredients` words it: the entries with
10% or less of the capacity remaining. -/
def lowTenPercent (cm : CoffeeMachine) : GoMap Ingredient Nat :=
  (Ingredients cm).filter (fun e => decide (10 * e.2 ≤ cm.MaxCapacity))

/-! ## The pour, statement by statement -/

/-- One statement executed by `PourBeverage`. -/
inductive PourEvent where
  /-- The assignment `cm.Ingredient[i] -= q`. -/
  | debit (i : Ingredient) (q : Nat)
  /-- The send `c <- msg` on the notification channel. -/
  | send (msg : String)
  /-- The call `time.Sleep` of five seconds. -/
  | sleep
deriving DecidableEq

/-- The statements of `PourBeverage` in the order of execution: the debit loop, the first
send, the sleep when `delay` is set, the second send. -/
def pourEvents (b : Beverage) (delay : Bool) : List PourEvent :=
  b.ingredients.map (fun iq => PourEvent.debit iq.1 iq.2) ++
    (PourEvent.send ("Serving " ++ b.Name) ::
      ((if delay then [PourEvent.sleep] else []) ++ [PourEvent.send ("Served " ++ b.Name)]))

/-- The effect of one statement of the pour on the machine and on the messages sent so far. -/
def applyPourEvent (st : CoffeeMachine × List String) : PourEvent → CoffeeMachine × List String
  | .debit i q =>
    ({ st.1 with
       Ingredient := GoMap.set st.1.Ingredient i (usub (GoMap.get st.1.Ingredient i) q) },
     st.2)
  | .send msg => (st.1, st.2 ++ [msg])
  | .sleep => st

/-! ## The machine and the pours in progress -/

/-- The running program: the machine, the pours started and not finished, the notification
channel. -/
structure System where
  /-- The machine shared by the main goroutine and the pours. -/
  machine : CoffeeMachine
  /-- For each goroutine started by `ServeBeverage` and not finished, the statements of
  `PourBeverage` it has still to execute. -/
  pending : List (List PourEvent)
  /-- The messages sent on the notification channel so far. -/
  sent : List String
  /-- Whether the main goroutine is blocked for ever on the send `cli.sem <- 1`. -/
  blocked : Bool
deriving DecidableEq

/-- The program after `Start`: no pour in progress, nothing sent. -/
def System.boot (cm : CoffeeMachine) : System :=
  { machine := cm, pending := [], sent := [], blocked := false }

/-- One step of the program: a request dispatched by `ServiceOption` (options 3 to 7) in the
main goroutine, or the next statement of a pour in progress. -/
inductive Op where
  | serve (name : String)
  | add (s : String)
  | remove (s : String)
  | refill (s : String)
  | refillAll
  /-- The scheduler runs the next statement of the pour at position `k` of `pending`. -/
  | pour (k : Nat)
deriving DecidableEq

/-- The next statement of the pour at position `k`, if there is one; a pour with nothing left
to execute ends. -/
def System.runPending (s : System) (k : Nat) : System :=
  match s.pending.get? k with
  | none => s
  | some [] => { s with pending := s.pending.eraseIdx k }
  | some (e :: rest) =>
    { s with
      machine := (applyPourEvent (s.machine, s.sent) e).1
      sent := (applyPourEvent (s.machine, s.sent) e).2
      pending := if rest.isEmpty then s.pending.eraseIdx k else s.pending.set k rest }

/-- The program after one step.  A request of the main goroutine does nothing once that
goroutine is blocked; a serve request leaves the pour it started among the pending ones. -/
def applyOp (toLower : String → String) (s : System) : Op → System
  | .pour k => s.runPending k
  | .serve name =>
    if s.blocked then s
    else
      { s with
        machine := (ServeBeverage s.machine name).machine
        pending := s.pending ++
          ((ServeBeverage s.machine name).started.map (fun b => pourEvents b true)).toList
        blocked := !(ServeBeverage s.machine name).returned }
  | .add x => if s.blocked then s else { s with machine := (AddIngredient toLower s.machine x).1 }
  | .remove x =>
    if s.blocked then s else { s with machine := (RemoveIngredient toLower s.machine x).1 }
  | .refill x =>
    if s.blocked then s else { s with machine := (RefillIngredient toLower s.machine x).1 }
  | .refillAll => if s.blocked then s else { s with machine := RefillAllIngredients s.machine }

/-- The program after a finite sequence of steps. -/
def runOps (toLower : String → String) (s : System) (ops : List Op) : System :=
  ops.foldl (applyOp toLower) s

/-! ## Interleavings of the serving path -/

/-- What the scheduler sees of the outlets: the semaphore `sem` and the pours in progress. -/
structure Outlets where
  /-- The capacity of the buffered channel `sem`, the number of outlets. -/
  slots : Nat
  /-- The number of values buffered in `sem`. -/
  held : Nat
  /-- The goroutines started by `ServeBeverage` whose `PourBeverage` has not returned. -/
  pouring : Nat
  /-- The counter of the wait group. -/
  wg : Nat
deriving DecidableEq

/-- One step of `ServeBeverage` after a passed check, or the end of a pour. -/
inductive OutletStep where
  /-- The call `wg.Add(1)`. -/
  | wgAdd
  /-- The send `cli.sem <- 1`, which blocks while the buffer is full. -/
  | semSend
  /-- The statement `go func() ...`: a pour starts. -/
  | goPour
  /-- The receive `<-cli.sem`. -/
  | semRecv
  /-- The goroutine ends: `PourBeverage` has returned and `wg.Done()` is called. -/
  | pourDone
deriving DecidableEq

/-- One step on the outlets; `none` when the step cannot be taken (a blocked send or receive,
or no pour to end). -/
def outletStep (s : Outlets) : OutletStep → Option Outlets
  | .wgAdd => some { s with wg := s.wg + 1 }
  | .semSend => if s.held < s.slots then some { s with held := s.held + 1 } else none
  | .goPour => some { s with pouring := s.pouring + 1 }
  | .semRecv => if 0 < s.held then some { s with held := s.held - 1 } else none
  | .pourDone =>
    if 0 < s.pouring then some { s with pouring := s.pouring - 1, wg := s.wg - 1 } else none

/-- A schedule of steps run from a state of the outlets. -/
def runOutlets (s : Outlets) : List OutletStep → Option Outlets
  | [] => some s
  | e :: rest =>
    match outletStep s e with
    | none => none
    | some s2 => runOutlets s2 rest

/-- The steps of `ServeBeverage` once the check has passed, in program order: `wg.Add(1)`,
the acquisition of the semaphore, the start of the goroutine, the release. -/
def admittedServe : List OutletStep := [.wgAdd, .semSend, .goPour, .semRecv]

/-- The outlets of `NewCoffeeMachineCLI(outlets, maxCap)` before any request. -/
def newOutlets (outlets : Nat) : Outlets := { slots := outlets, held := 0, pouring := 0, wg := 0 }

/-- Where a serve request stands. -/
inductive Request where
  /-- `CheckIngredients` has not run yet. -/
  | waiting
  /-- The check returned `nil`; the goroutine has not run its debit loop yet. -/
  | admitted
  /-- The check returned an error. -/
  | rejected
  /-- The debit loop of `PourBeverage` has run. -/
  | poured
deriving DecidableEq

/-- Two serve requests for the same beverage and the machine they share. -/
structure Race where
  machine : CoffeeMachine
  first : Request
  second : Request
deriving DecidableEq

/-- One step of one of the two requests (`second = false` for the first request): the check
made by `ServeBeverage`, or the debit loop run by its goroutine. -/
inductive RaceStep where
  | check (second : Bool)
  | debit (second : Bool)
deriving DecidableEq

/-- The request a step belongs to. -/
def Race.request (s : Race) (second : Bool) : Request := if second then s.second else s.first

/-- The race with one request updated. -/
def Race.setRequest (s : Race) (second : Bool) (r : Request) : Race :=
  if second then { s with second := r } else { s with first := r }

/-- One step of the race on beverage `b`; `none` when the request is not at that step. -/
def raceStep (b : Beverage) (s : Race) : RaceStep → Option Race
  | .check second =>
    if s.request second = Request.waiting then
      some (s.setRequest second
        (if CheckIngredients s.machine b = none then Request.admitted else Request.rejected))
    else none
  | .debit second =>
    if s.request second = Request.admitted then
      some ({ s with machine := (PourBeverage s.machine b true).1 }.setRequest second
        Request.poured)
    else none

/-- A schedule of steps run from a state of the race. -/
def runRace (b : Beverage) (s : Race) : List RaceStep → Option Race
  | [] => some s
  | e :: rest =>
    match raceStep b s e with
    | none => none
    | some s2 => runRace b s2 rest

/-! ## More machines and beverages of the scenarios -/

/-- The beverage "tea" of the two-request scenario: 50 units of water. -/
def tea : Beverage := { Name := "tea", ingredients := [(⟨"water"⟩, 50)] }

/-- The machine of the two-request scenario: one outlet, capacity 1000, 60 units of water. -/
def teaMachine : CoffeeMachine :=
  { NumOutlets := 1, Beverages := [("tea", tea)], Ingredient := [(⟨"water"⟩, 60)],
    MaxCapacity := 1000 }

/-- A beverage short of two ingredients on the seeded test machine. -/
def bigCoffee : Beverage :=
  { Name := "coffee", ingredients := [(⟨"hot water"⟩, 2000), (⟨"sugar syrup"⟩, 2000)] }

/-- The same recipe as `bigCoffee`, met in the other iteration order. -/
def bigCoffeeReversed : Beverage :=
  { Name := "coffee", ingredients := [(⟨"sugar syrup"⟩, 2000), (⟨"hot water"⟩, 2000)] }

/-- One coffee served and poured before anything else happens: the request, then the seven
statements of its pour (four debits, a send, the sleep, a send). -/
def servedCoffee : List Op := Op.serve "coffee" :: List.replicate 7 (Op.pour 0)

/-- The steps that bring "hot milk" down to 80 on the seeded test machine: 92 coffees served
and poured one after the other, with "hot water" refilled after every 20 of them. -/
def manyCoffees : List Op :=
  (List.replicate 4
      ((List.replicate 20 servedCoffee).flatten ++ [Op.refill "hot water"])).flatten ++
    (List.replicate 12 servedCoffee).flatten

/-- One "hot water" served and poured before anything else happens: the request, then the four
statements of its pour (one debit, a send, the sleep, a send). -/
def servedHotWater : List Op := Op.serve "hot water" :: List.replicate 4 (Op.pour 0)

/-- Nineteen "hot water" served and poured one after the other, then two more requests for
"hot water" made before the pour of either has run its debit, then the two debits. -/
def overdrawRun : List Op :=
  (List.replicate 19 servedHotWater).flatten ++
    [Op.serve "hot water", Op.serve "hot water", Op.pour 0, Op.pour 1]

/-- The ingredients named by the recipes of a catalog, in iteration order. -/
def recipeKeys (bevs : GoMap String Beverage) : List Ingredient :=
  (bevs.map (fun nb => GoMap.keys nb.2.ingredients)).flatten

/-! ## Lemmas on Go maps -/

namespace GoMap

variable {κ ν : Type} [DecidableEq κ]

theorem lookup_eq_none_iff (m : GoMap κ ν) (k : κ) : lookup m k = none ↔ k ∉ keys m := by
  induction m with
  | nil => simp [lookup, keys]
  | cons e rest ih =>
    obtain ⟨k', v⟩ := e
    by_cases h : k' = k
    · simp [lookup, keys, h]
    · have h2 : ¬ k = k' := fun h3 => h h3.symm
      simpa [lookup, keys, h, h2] using ih

theorem lookup_isSome_iff (m : GoMap κ ν) (k : κ) : (lookup m k).isSome ↔ k ∈ keys m := by
  have h := lookup_eq_none_iff m k
  cases hl : lookup m k with
  | none => simpa [hl] using h
  | some v =>
    rw [hl] at h
    simp only [Option.isSome_some, true_iff]
    by_contra hk
    exact absurd (h.mpr hk) (by simp)

theorem lookup_mem (m : GoMap κ ν) (k : κ) (v : ν) (h : lookup m k = some v) : (k, v) ∈ m := by
  induction m with
  | nil => simp [lookup] at h
  | cons e rest ih =>
    obtain ⟨k', v'⟩ := e
    by_cases hk : k' = k
    · simp only [lookup, hk, if_true, Option.some.injEq] at h
      simp [hk, h]
    · simp only [lookup, hk, if_false] at h
      exact List.mem_cons_of_mem _ (ih h)

theorem lookup_of_mem (m : GoMap κ ν) (hm : WF m) (k : κ) (v : ν) (h : (k, v) ∈ m) :
    lookup m k = some v := by
  induction m with
  | nil => simp at h
  | cons e rest ih =>
    obtain ⟨k', v'⟩ := e
    have hnd : k' ∉ keys rest ∧ WF rest := by simpa [WF, keys] using hm
    rcases List.mem_cons.mp h with heq | hin
    · cases heq
      simp [lookup]
    · have hk : k ∈ keys rest := List.mem_map.mpr ⟨(k, v), hin, rfl⟩
      have hne : ¬ k' = k := fun h3 => hnd.1 (h3 ▸ hk)
      simpa [lookup, hne] using ih hnd.2 hin

theorem lookup_set_self (m : GoMap κ ν) (k : κ) (v : ν) : lookup (set m k v) k = some v := by
  induction m with
  | nil => simp [set, lookup]
  | cons e rest ih =>
    obtain ⟨k', v'⟩ := e
    by_cases h : k' = k
    · simp [set, lookup, h]
    · simpa [set, lookup, h] using ih

theorem lookup_set_ne (m : GoMap κ ν) (k j : κ) (v : ν) (hne : k ≠ j) :
    lookup (set m k v) j = lookup m j := by
  induction m with
  | nil => simp [set, lookup, hne]
  | cons e rest ih =>
    obtain ⟨k', v'⟩ := e
    by_cases h : k' = k
    · have h2 : ¬ k = j := hne
      simp [set, lookup, h, h2]
    · by_cases h3 : k' = j
      · subst h3
        simp [set, lookup, h]
      · simpa [set, lookup, h, h3] using ih

theorem get_set_self (m : GoMap κ Nat) (k : κ) (v : Nat) : get (set m k v) k = v := by
  simp [get, lookup_set_self]

theorem get_set_ne (m : GoMap κ Nat) (k j : κ) (v : Nat) (hne : k ≠ j) :
    get (set m k v) j = get m j := by
  simp [get, lookup_set_ne m k j v hne]

theorem mem_set (m : GoMap κ ν) (k : κ) (v : ν) (e : κ × ν) (h : e ∈ set m k v) :
    e = (k, v) ∨ e ∈ m := by
  induction m with
  | nil => simpa [set] using h
  | cons e' rest ih =>
    obtain ⟨k', v'⟩ := e'
    by_cases hk : k' = k
    · simp only [set, hk, if_true, List.mem_cons] at h
      rcases h with h | h
      · exact Or.inl h
      · exact Or.inr (List.mem_cons_of_mem _ h)
    · simp only [set, hk, if_false, List.mem_cons] at h
      rcases h with h | h
      · exact Or.inr (h ▸ List.mem_cons_self _ _)
      · rcases ih h with h2 | h2
        · exact Or.inl h2
        · exact Or.inr (List.mem_cons_of_mem _ h2)

theorem keys_set_of_mem (m : GoMap κ ν) (k : κ) (v : ν) (h : k ∈ keys m) :
    keys (set m k v) = keys m := by
  induction m with
  | nil => simp [keys] at h
  | cons e rest ih =>
    obtain ⟨k', v'⟩ := e
    by_cases hk : k' = k
    · simp [set, keys, hk]
    · have h2 : k ∈ keys rest := by
        have h3 : k = k' ∨ k ∈ keys rest := by simpa [keys] using h
        rcases h3 with h3 | h3
        · exact absurd h3.symm hk
        · exact h3
      have h4 := ih h2
      simp only [keys] at h4
      simp [set, keys, hk, h4]

theorem keys_set_of_not_mem (m : GoMap κ ν) (k : κ) (v : ν) (h : k ∉ keys m) :
    keys (set m k v) = keys m ++ [k] := by
  induction m with
  | nil => simp [set, keys]
  | cons e rest ih =>
    obtain ⟨k', v'⟩ := e
    have h3 : ¬ k = k' ∧ k ∉ keys rest := by simpa [keys] using h
    have hk : ¬ k' = k := fun h5 => h3.1 h5.symm
    have h4 := ih h3.2
    simp only [keys] at h4
    simp [set, keys, hk, h4]

theorem WF_set (m : GoMap κ ν) (k : κ) (v : ν) (hm : WF m) : WF (set m k v) := by
  by_cases h : k ∈ keys m
  · simpa [WF, keys_set_of_mem m k v h] using hm
  · unfold WF at hm ⊢
    rw [keys_set_of_not_mem m k v h]
    exact List.Nodup.append hm (List.nodup_singleton k) (by simpa using h)

theorem lookup_delete_self (m : GoMap κ ν) (k : κ) : lookup (delete m k) k = none := by
  rw [lookup_eq_none_iff]
  simp [keys, delete]

theorem lookup_delete_ne (m : GoMap κ ν) (k j : κ) (hne : k ≠ j) :
    lookup (delete m k) j = lookup m j := by
  induction m with
  | nil => simp [delete, lookup]
  | cons e rest ih =>
    obtain ⟨k', v'⟩ := e
    by_cases h : k' = k
    · have h2 : ¬ k' = j := fun h3 => hne (h ▸ h3)
      have h4 : delete ((k', v') :: rest) k = delete rest k := by simp [delete, h]
      rw [h4, ih]
      simp [lookup, h2]
    · have h4 : delete ((k', v') :: rest) k = (k', v') :: delete rest k := by simp [delete, h]
      rw [h4]
      by_cases h3 : k' = j
      · simp [lookup, h3]
      · simpa [lookup, h3] using ih

theorem WF_delete (m : GoMap κ ν) (k : κ) (hm : WF m) : WF (delete m k) := by
  unfold WF keys delete at *
  exact hm.sublist ((List.filter_sublist _).map _)

theorem get_lt_of_forall (m : GoMap κ Nat) (k : κ) (bound : Nat) (hb : 0 < bound)
    (h : ∀ e ∈ m, e.2 < bound) : get m k < bound := by
  unfold get
  cases hl : lookup m k with
  | none => simpa using hb
  | some v => simpa using h _ (lookup_mem m k v hl)

theorem get_le_of_forall (m : GoMap κ Nat) (k : κ) (bound : Nat)
    (h : ∀ e ∈ m, e.2 ≤ bound) : get m k ≤ bound := by
  unfold get
  cases hl : lookup m k with
  | none => simp
  | some v => simpa using h _ (lookup_mem m k v hl)

end GoMap

/-! ## Lemmas on the machine operations -/

theorem uintMod_pos : 0 < uintMod := by unfold uintMod; norm_num

theorem usub_of_le (a b : Nat) (ha : a < uintMod) (hb : b ≤ a) : usub a b = a - b := by
  unfold usub uintMod at *
  omega

theorem checkLoop_eq_none_iff (inv : GoMap Ingredient Nat) (bname : String)
    (recipe : GoMap Ingredient Nat) :
    checkLoop inv bname recipe = none ↔ ∀ iq ∈ recipe, iq.2 ≤ GoMap.get inv iq.1 := by
  induction recipe with
  | nil => simp [checkLoop]
  | cons e rest ih =>
    obtain ⟨i, q⟩ := e
    by_cases h : GoMap.get inv i < q
    · simp [checkLoop, h]
    · simp only [checkLoop, h, if_false, ih, List.mem_cons, forall_eq_or_imp]
      constructor
      · intro h2
        exact ⟨Nat.le_of_not_lt h, h2⟩
      · intro h2
        exact h2.2

theorem debit_cons (inv : GoMap Ingredient Nat) (i : Ingredient) (q : Nat)
    (rest : GoMap Ingredient Nat) :
    debit inv ((i, q) :: rest) =
      debit (GoMap.set inv i (usub (GoMap.get inv i) q)) rest := rfl

theorem debit_lookup_of_not_mem (recipe inv : GoMap Ingredient Nat) (j : Ingredient)
    (hj : j ∉ GoMap.keys recipe) :
    GoMap.lookup (debit inv recipe) j = GoMap.lookup inv j := by
  induction recipe generalizing inv with
  | nil => rfl
  | cons e rest ih =>
    obtain ⟨i, q⟩ := e
    have h : ¬ j = i ∧ j ∉ GoMap.keys rest := by simpa [GoMap.keys] using hj
    rw [debit_cons, ih _ h.2]
    exact GoMap.lookup_set_ne _ _ _ _ (fun h3 => h.1 h3.symm)

theorem debit_get_of_ok (recipe inv : GoMap Ingredient Nat) (hwf : GoMap.WF recipe)
    (hr : ∀ e ∈ inv, e.2 < uintMod) (hok : ∀ iq ∈ recipe, iq.2 ≤ GoMap.get inv iq.1) :
    ∀ iq ∈ recipe, GoMap.get (debit inv recipe) iq.1 + iq.2 = GoMap.get inv iq.1 := by
  induction recipe generalizing inv with
  | nil => simp
  | cons e rest ih =>
    obtain ⟨i, q⟩ := e
    have hnd : i ∉ GoMap.keys rest ∧ GoMap.WF rest := by simpa [GoMap.WF, GoMap.keys] using hwf
    have hq : q ≤ GoMap.get inv i := hok (i, q) (List.mem_cons_self _ _)
    have hlt : GoMap.get inv i < uintMod := GoMap.get_lt_of_forall inv i uintMod uintMod_pos hr
    have hsub : usub (GoMap.get inv i) q = GoMap.get inv i - q := usub_of_le _ _ hlt hq
    have hne : ∀ iq ∈ rest, i ≠ iq.1 := by
      intro iq hiq heq
      exact hnd.1 (heq ▸ List.mem_map.mpr ⟨iq, hiq, rfl⟩)
    have hr2 : ∀ e ∈ GoMap.set inv i (usub (GoMap.get inv i) q), e.2 < uintMod := by
      intro e he
      rcases GoMap.mem_set _ _ _ _ he with h | h
      · rw [h, hsub]
        exact Nat.lt_of_le_of_lt (Nat.sub_le _ _) hlt
      · exact hr e h
    have hok2 : ∀ iq ∈ rest,
        iq.2 ≤ GoMap.get (GoMap.set inv i (usub (GoMap.get inv i) q)) iq.1 := by
      intro iq hiq
      rw [GoMap.get_set_ne _ _ _ _ (hne iq hiq)]
      exact hok iq (List.mem_cons_of_mem _ hiq)
    intro iq hiq
    rw [debit_cons]
    rcases List.mem_cons.mp hiq with heq | hin
    · subst heq
      have h1 := debit_lookup_of_not_mem rest
        (GoMap.set inv i (usub (GoMap.get inv i) q)) i hnd.1
      have h2 : GoMap.get (debit (GoMap.set inv i (usub (GoMap.get inv i) q)) rest) i =
          GoMap.get inv i - q := by
        unfold GoMap.get at *
        rw [h1, GoMap.lookup_set_self, hsub]
        rfl
      show GoMap.get (debit (GoMap.set inv i (usub (GoMap.get inv i) q)) rest) i + q = _
      rw [h2]
      exact Nat.sub_add_cancel hq
    · rw [ih _ hnd.2 hr2 hok2 iq hin, GoMap.get_set_ne _ _ _ _ (hne iq hin)]

theorem debit_le_of_ok (recipe inv : GoMap Ingredient Nat) (cap : Nat) (hcap : cap < uintMod)
    (hwf : GoMap.WF recipe) (hle : ∀ e ∈ inv, e.2 ≤ cap)
    (hok : ∀ iq ∈ recipe, iq.2 ≤ GoMap.get inv iq.1) :
    ∀ e ∈ debit inv recipe, e.2 ≤ cap := by
  induction recipe generalizing inv with
  | nil => simpa [debit] using hle
  | cons e rest ih =>
    obtain ⟨i, q⟩ := e
    have hnd : i ∉ GoMap.keys rest ∧ GoMap.WF rest := by simpa [GoMap.WF, GoMap.keys] using hwf
    have hq : q ≤ GoMap.get inv i := hok (i, q) (List.mem_cons_self _ _)
    have hgle : GoMap.get inv i ≤ cap := GoMap.get_le_of_forall inv i cap hle
    have hsub : usub (GoMap.get inv i) q = GoMap.get inv i - q :=
      usub_of_le _ _ (Nat.lt_of_le_of_lt hgle hcap) hq
    have hne : ∀ iq ∈ rest, i ≠ iq.1 := by
      intro iq hiq heq
      exact hnd.1 (heq ▸ List.mem_map.mpr ⟨iq, hiq, rfl⟩)
    rw [debit_cons]
    apply ih _ hnd.2
    · intro e he
      rcases GoMap.mem_set _ _ _ _ he with h | h
      · rw [h, hsub]
        exact Nat.le_trans (Nat.sub_le _ _) hgle
      · exact hle e h
    · intro iq hiq
      rw [GoMap.get_set_ne _ _ _ _ (hne iq hiq)]
      exact hok iq (List.mem_cons_of_mem _ hiq)

theorem foldl_set_le (ks : List Ingredient) (inv : GoMap Ingredient Nat) (cap : Nat)
    (hle : ∀ e ∈ inv, e.2 ≤ cap) :
    ∀ e ∈ ks.foldl (fun acc i => GoMap.set acc i cap) inv, e.2 ≤ cap := by
  induction ks generalizing inv with
  | nil => simpa using hle
  | cons k rest ih =>
    simp only [List.foldl_cons]
    apply ih
    intro e he
    rcases GoMap.mem_set _ _ _ _ he with h | h
    · rw [h]
    · exact hle e h

theorem seedInventory_le (cap : Nat) (bevs : GoMap String Beverage)
    (inv : GoMap Ingredient Nat) (hle : ∀ e ∈ inv, e.2 ≤ cap) :
    ∀ e ∈ seedInventory cap bevs inv, e.2 ≤ cap := by
  unfold seedInventory
  induction bevs generalizing inv with
  | nil => simpa using hle
  | cons nb rest ih =>
    simp only [List.foldl_cons]
    apply ih
    have h := foldl_set_le (GoMap.keys nb.2.ingredients) inv cap hle
    simpa [GoMap.keys, List.foldl_map] using h

theorem seedCatalog_eq :
    seedBeverages.foldl (fun m e => GoMap.set m e.1 e.2) ([] : GoMap String Beverage) =
      seedBeverages := by decide

theorem seedBeverages_WF : ∀ nb ∈ seedBeverages, GoMap.WF nb.2.ingredients := by decide

theorem SeedData_New (n cap : Nat) :
    SeedData (NewCoffeeMachine n cap) =
      { NumOutlets := n, Beverages := seedBeverages,
        Ingredient := seedInventory cap seedBeverages [], MaxCapacity := cap } := by
  simp only [SeedData, NewCoffeeMachine, seedCatalog_eq]

theorem AddIngredient_absent (toLower : String → String) (cm : CoffeeMachine) (s : String)
    (h : GoMap.lookup cm.Ingredient ⟨toLower s⟩ = none) :
    AddIngredient toLower cm s =
      ({ cm with Ingredient := GoMap.set cm.Ingredient ⟨toLower s⟩ cm.MaxCapacity }, true) := by
  simp only [AddIngredient, h]

theorem AddIngredient_present (toLower : String → String) (cm : CoffeeMachine) (s : String)
    (v : Nat) (h : GoMap.lookup cm.Ingredient ⟨toLower s⟩ = some v) :
    AddIngredient toLower cm s = (cm, false) := by
  simp only [AddIngredient, h]

theorem RemoveIngredient_absent (toLower : String → String) (cm : CoffeeMachine) (s : String)
    (h : GoMap.lookup cm.Ingredient ⟨toLower s⟩ = none) :
    RemoveIngredient toLower cm s = (cm, false) := by
  simp only [RemoveIngredient, h]

theorem RemoveIngredient_present (toLower : String → String) (cm : CoffeeMachine) (s : String)
    (v : Nat) (h : GoMap.lookup cm.Ingredient ⟨toLower s⟩ = some v) :
    RemoveIngredient toLower cm s =
      ({ cm with Ingredient := GoMap.delete cm.Ingredient ⟨toLower s⟩ }, true) := by
  simp only [RemoveIngredient, h]

theorem RefillIngredient_absent (toLower : String → String) (cm : CoffeeMachine) (s : String)
    (h : GoMap.lookup cm.Ingredient ⟨toLower s⟩ = none) :
    RefillIngredient toLower cm s = (cm, false) := by
  simp only [RefillIngredient, h]

theorem RefillIngredient_present (toLower : String → String) (cm : CoffeeMachine) (s : String)
    (v : Nat) (h : GoMap.lookup cm.Ingredient ⟨toLower s⟩ = some v) :
    RefillIngredient toLower cm s =
      ({ cm with Ingredient := GoMap.set cm.Ingredient ⟨toLower s⟩ cm.MaxCapacity }, true) := by
  simp only [RefillIngredient, h]

theorem Bounded_mk (n cap : Nat) (bevs : GoMap String Beverage) (inv : GoMap Ingredient Nat)
    (hcap : cap < uintMod) (hle : ∀ e ∈ inv, e.2 ≤ cap)
    (hwf : ∀ nb ∈ bevs, GoMap.WF nb.2.ingredients) :
    Bounded { NumOutlets := n, Beverages := bevs, Ingredient := inv, MaxCapacity := cap } :=
  ⟨hcap, hle, hwf⟩

theorem Bounded_seed (n cap : Nat) (hcap : cap < uintMod) :
    Bounded (SeedData (NewCoffeeMachine n cap)) := by
  rw [SeedData_New]
  exact Bounded_mk n cap seedBeverages (seedInventory cap seedBeverages []) hcap
    (seedInventory_le cap seedBeverages [] (fun e he => absurd he (List.not_mem_nil e)))
    seedBeverages_WF

theorem Bounded_pour_after_check (cm : CoffeeMachine) (b : Beverage) (delay : Bool)
    (hb : GoMap.WF b.ingredients) (h : Bounded cm) (hc : CheckIngredients cm b = none) :
    Bounded (PourBeverage cm b delay).1 := by
  refine ⟨h.1, ?_, h.2.2⟩
  exact debit_le_of_ok b.ingredients cm.Ingredient cm.MaxCapacity h.1 hb h.2.1
    ((checkLoop_eq_none_iff _ _ _).mp hc)

theorem Bounded_set_cap (cm : CoffeeMachine) (i : Ingredient) (h : Bounded cm) :
    Bounded { cm with Ingredient := GoMap.set cm.Ingredient i cm.MaxCapacity } := by
  refine ⟨h.1, ?_, h.2.2⟩
  intro e he
  rcases GoMap.mem_set _ _ _ _ he with h2 | h2
  · rw [h2]
  · exact h.2.1 e h2

theorem Bounded_AddIngredient (toLower : String → String) (cm : CoffeeMachine) (s : String)
    (h : Bounded cm) : Bounded (AddIngredient toLower cm s).1 := by
  cases hl : GoMap.lookup cm.Ingredient ⟨toLower s⟩ with
  | some v =>
    rw [AddIngredient_present toLower cm s v hl]
    exact h
  | none =>
    rw [AddIngredient_absent toLower cm s hl]
    exact Bounded_set_cap cm _ h

theorem Bounded_RemoveIngredient (toLower : String → String) (cm : CoffeeMachine) (s : String)
    (h : Bounded cm) : Bounded (RemoveIngredient toLower cm s).1 := by
  cases hl : GoMap.lookup cm.Ingredient ⟨toLower s⟩ with
  | none =>
    rw [RemoveIngredient_absent toLower cm s hl]
    exact h
  | some v =>
    rw [RemoveIngredient_present toLower cm s v hl]
    refine ⟨h.1, ?_, h.2.2⟩
    intro e he
    exact h.2.1 e (List.mem_of_mem_filter he)

theorem Bounded_RefillIngredient (toLower : String → String) (cm : CoffeeMachine) (s : String)
    (h : Bounded cm) : Bounded (RefillIngredient toLower cm s).1 := by
  cases hl : GoMap.lookup cm.Ingredient ⟨toLower s⟩ with
  | none =>
    rw [RefillIngredient_absent toLower cm s hl]
    exact h
  | some v =>
    rw [RefillIngredient_present toLower cm s v hl]
    exact Bounded_set_cap cm _ h

theorem Bounded_RefillAllIngredients (cm : CoffeeMachine) (h : Bounded cm) :
    Bounded (RefillAllIngredients cm) :=
  ⟨h.1, foldl_set_le _ _ _ h.2.1, h.2.2⟩

theorem runPending_nil (s : System) (k : Nat) (h : s.pending = []) : s.runPending k = s := by
  unfold System.runPending
  rw [h]
  rfl

theorem runOps_pours_nil (toLower : String → String) (ks : List Nat) (s : System)
    (h : s.pending = []) : runOps toLower s (ks.map Op.pour) = s := by
  induction ks with
  | nil => rfl
  | cons k rest ih =>
    show runOps toLower (s.runPending k) (rest.map Op.pour) = s
    rw [runPending_nil s k h]
    exact ih

theorem ServeBeverage_of_failed (cm : CoffeeMachine) (name : String) (b : Beverage)
    (e : String) (hsel : GoMap.lookup (ListBeverages cm) name = some b)
    (hfail : CheckIngredients cm b = some e) :
    ServeBeverage cm name =
      { machine := cm, err := none, printed := [e], started := none, wgAdded := 0,
        returned := true } := by
  simp only [ServeBeverage, hsel, serveSelected, hfail]

theorem GoMap.set_eq_self {κ ν : Type} [DecidableEq κ] (m : GoMap κ ν) (k : κ) (v : ν)
    (h : GoMap.lookup m k = some v) : GoMap.set m k v = m := by
  induction m with
  | nil => simp [GoMap.lookup] at h
  | cons e rest ih =>
    obtain ⟨k', v'⟩ := e
    by_cases hk : k' = k
    · simp only [GoMap.lookup, hk, if_true, Option.some.injEq] at h
      simp [GoMap.set, hk, h]
    · simp only [GoMap.lookup, hk, if_false] at h
      simp [GoMap.set, hk, ih h]

theorem foldl_set_lookup (ks : List Ingredient) (inv : GoMap Ingredient Nat) (cap : Nat)
    (i : Ingredient) :
    GoMap.lookup (ks.foldl (fun acc k => GoMap.set acc k cap) inv) i =
      if i ∈ ks then some cap else GoMap.lookup inv i := by
  induction ks generalizing inv with
  | nil => simp
  | cons k rest ih =>
    simp only [List.foldl_cons, ih, List.mem_cons]
    by_cases h1 : i ∈ rest
    · simp [h1]
    · by_cases h2 : i = k
      · subst h2
        simp [h1, GoMap.lookup_set_self]
      · have h3 : k ≠ i := fun h4 => h2 h4.symm
        simp [h1, h2, GoMap.lookup_set_ne _ _ _ _ h3]

theorem foldl_set_keys (ks : List Ingredient) (inv : GoMap Ingredient Nat) (cap : Nat)
    (h : ∀ k ∈ ks, k ∈ GoMap.keys inv) :
    GoMap.keys (ks.foldl (fun acc k => GoMap.set acc k cap) inv) = GoMap.keys inv := by
  induction ks generalizing inv with
  | nil => rfl
  | cons k rest ih =>
    have hk : k ∈ GoMap.keys inv := h k (List.mem_cons_self _ _)
    have hs := GoMap.keys_set_of_mem inv k cap hk
    simp only [List.foldl_cons]
    rw [ih (GoMap.set inv k cap) (by
      intro j hj
      rw [hs]
      exact h j (List.mem_cons_of_mem _ hj)), hs]

theorem foldl_set_fixed (ks : List Ingredient) (inv : GoMap Ingredient Nat) (cap : Nat)
    (h : ∀ k ∈ ks, GoMap.lookup inv k = some cap) :
    ks.foldl (fun acc k => GoMap.set acc k cap) inv = inv := by
  induction ks with
  | nil => rfl
  | cons k rest ih =>
    simp only [List.foldl_cons]
    rw [GoMap.set_eq_self inv k cap (h k (List.mem_cons_self _ _))]
    exact ih (fun j hj => h j (List.mem_cons_of_mem _ hj))

theorem RefillAll_lookup (cm : CoffeeMachine) (i : Ingredient) :
    GoMap.lookup (RefillAllIngredients cm).Ingredient i =
      if i ∈ GoMap.keys cm.Ingredient then some cm.MaxCapacity else none := by
  show GoMap.lookup ((GoMap.keys cm.Ingredient).foldl
    (fun acc k => GoMap.set acc k cm.MaxCapacity) cm.Ingredient) i = _
  rw [foldl_set_lookup]
  by_cases h : i ∈ GoMap.keys cm.Ingredient
  · simp [h]
  · simp [h, (GoMap.lookup_eq_none_iff cm.Ingredient i).mpr h]

theorem RefillAll_keys (cm : CoffeeMachine) :
    GoMap.keys (RefillAllIngredients cm).Ingredient = GoMap.keys cm.Ingredient :=
  foldl_set_keys (GoMap.keys cm.Ingredient) cm.Ingredient cm.MaxCapacity (fun _ hk => hk)

theorem RefillAll_idem (cm : CoffeeMachine) :
    RefillAllIngredients (RefillAllIngredients cm) = RefillAllIngredients cm := by
  have hfix : (GoMap.keys (RefillAllIngredients cm).Ingredient).foldl
      (fun acc k => GoMap.set acc k cm.MaxCapacity) (RefillAllIngredients cm).Ingredient =
      (RefillAllIngredients cm).Ingredient := by
    apply foldl_set_fixed
    intro k hk
    rw [RefillAll_keys] at hk
    rw [RefillAll_lookup]
    simp [hk]
  show ({ RefillAllIngredients cm with
      Ingredient := (GoMap.keys (RefillAllIngredients cm).Ingredient).foldl
        (fun acc k => GoMap.set acc k cm.MaxCapacity) (RefillAllIngredients cm).Ingredient } :
      CoffeeMachine) = RefillAllIngredients cm
  rw [hfix]

theorem RefillIngredient_MaxCapacity (toLower : String → String) (cm : CoffeeMachine)
    (s : String) : (RefillIngredient toLower cm s).1.MaxCapacity = cm.MaxCapacity := by
  cases hl : GoMap.lookup cm.Ingredient ⟨toLower s⟩ with
  | none => rw [RefillIngredient_absent toLower cm s hl]
  | some v => rw [RefillIngredient_present toLower cm s v hl]

theorem RefillIngredient_lookup (toLower : String → String) (cm : CoffeeMachine)
    (s : String) (j : Ingredient) :
    GoMap.lookup (RefillIngredient toLower cm s).1.Ingredient j =
      if j = ⟨toLower s⟩ ∧ j ∈ GoMap.keys cm.Ingredient then some cm.MaxCapacity
      else GoMap.lookup cm.Ingredient j := by
  cases hl : GoMap.lookup cm.Ingredient ⟨toLower s⟩ with
  | none =>
    rw [RefillIngredient_absent toLower cm s hl]
    have hk := (GoMap.lookup_eq_none_iff _ _).mp hl
    have : ¬ (j = ⟨toLower s⟩ ∧ j ∈ GoMap.keys cm.Ingredient) := fun h => hk (h.1 ▸ h.2)
    simp [this]
  | some v =>
    rw [RefillIngredient_present toLower cm s v hl]
    have hk : (⟨toLower s⟩ : Ingredient) ∈ GoMap.keys cm.Ingredient :=
      (GoMap.lookup_isSome_iff _ _).mp (by simp [hl])
    by_cases hj : j = ⟨toLower s⟩
    · subst hj
      simp [hk, GoMap.lookup_set_self]
    · have h3 : (⟨toLower s⟩ : Ingredient) ≠ j := fun h4 => hj h4.symm
      simp [hj, GoMap.lookup_set_ne _ _ _ _ h3]

theorem refillRecipe_cons (toLower : String → String) (cm : CoffeeMachine) (name : String)
    (e : Ingredient × Nat) (rest : GoMap Ingredient Nat) :
    refillRecipe toLower cm { Name := name, ingredients := e :: rest } =
      refillRecipe toLower (RefillIngredient toLower cm e.1.Name).1
        { Name := name, ingredients := rest } := rfl

theorem refillRecipe_stable (toLower : String → String) (name : String)
    (recipe : GoMap Ingredient Nat) (cm : CoffeeMachine) (j : Ingredient) :
    (refillRecipe toLower cm { Name := name, ingredients := recipe }).MaxCapacity =
        cm.MaxCapacity ∧
      (GoMap.lookup cm.Ingredient j = some cm.MaxCapacity →
        GoMap.lookup (refillRecipe toLower cm
          { Name := name, ingredients := recipe }).Ingredient j = some cm.MaxCapacity) := by
  induction recipe generalizing cm with
  | nil => exact ⟨rfl, fun h => h⟩
  | cons e rest ih =>
    rw [refillRecipe_cons]
    have h1 := ih (RefillIngredient toLower cm e.1.Name).1
    rw [RefillIngredient_MaxCapacity] at h1
    refine ⟨h1.1, fun h => h1.2 ?_⟩
    rw [RefillIngredient_lookup]
    split
    · rfl
    · exact h

theorem refillRecipe_full (toLower : String → String) (name : String)
    (recipe : GoMap Ingredient Nat) (cm : CoffeeMachine)
    (hpres : ∀ iq ∈ recipe, iq.1 ∈ GoMap.keys cm.Ingredient)
    (hlow : ∀ iq ∈ recipe, toLower iq.1.Name = iq.1.Name) :
    ∀ iq ∈ recipe,
      GoMap.lookup (refillRecipe toLower cm
        { Name := name, ingredients := recipe }).Ingredient iq.1 = some cm.MaxCapacity := by
  induction recipe generalizing cm with
  | nil => simp
  | cons e rest ih =>
    have hkey : (⟨toLower e.1.Name⟩ : Ingredient) = e.1 := by
      rw [hlow e (List.mem_cons_self _ _)]
    have hhead : GoMap.lookup (RefillIngredient toLower cm e.1.Name).1.Ingredient e.1 =
        some cm.MaxCapacity := by
      rw [RefillIngredient_lookup, hkey]
      simp [hpres e (List.mem_cons_self _ _)]
    have hpres2 : ∀ iq ∈ rest,
        iq.1 ∈ GoMap.keys (RefillIngredient toLower cm e.1.Name).1.Ingredient := by
      intro iq hiq
      apply (GoMap.lookup_isSome_iff _ _).mp
      rw [RefillIngredient_lookup]
      split
      · rfl
      · exact (GoMap.lookup_isSome_iff _ _).mpr (hpres iq (List.mem_cons_of_mem _ hiq))
    intro iq hiq
    rw [refillRecipe_cons]
    rcases List.mem_cons.mp hiq with heq | hin
    · subst heq
      have h2 := (refillRecipe_stable toLower name rest
        (RefillIngredient toLower cm iq.1.Name).1 iq.1).2
      rw [RefillIngredient_MaxCapacity] at h2
      exact h2 hhead
    · have h3 := ih (RefillIngredient toLower cm e.1.Name).1 hpres2
        (fun x hx => hlow x (List.mem_cons_of_mem _ hx)) iq hin
      rw [RefillIngredient_MaxCapacity] at h3
      exact h3

theorem AddIngredient_lookup_self (toLower : String → String) (cm : CoffeeMachine)
    (s : String) :
    (⟨toLower s⟩ : Ingredient) ∈ GoMap.keys (AddIngredient toLower cm s).1.Ingredient := by
  apply (GoMap.lookup_isSome_iff _ _).mp
  cases hl : GoMap.lookup cm.Ingredient ⟨toLower s⟩ with
  | none =>
    rw [AddIngredient_absent toLower cm s hl]
    simp [GoMap.lookup_set_self]
  | some v =>
    rw [AddIngredient_present toLower cm s v hl]
    simp [hl]

theorem AddIngredient_WF (toLower : String → String) (cm : CoffeeMachine) (s : String)
    (hwf : GoMap.WF cm.Ingredient) : GoMap.WF (AddIngredient toLower cm s).1.Ingredient := by
  cases hl : GoMap.lookup cm.Ingredient ⟨toLower s⟩ with
  | none =>
    rw [AddIngredient_absent toLower cm s hl]
    exact GoMap.WF_set _ _ _ hwf
  | some v =>
    rw [AddIngredient_present toLower cm s v hl]
    exact hwf

theorem AddIngredient_MaxCapacity (toLower : String → String) (cm : CoffeeMachine)
    (s : String) : (AddIngredient toLower cm s).1.MaxCapacity = cm.MaxCapacity := by
  cases hl : GoMap.lookup cm.Ingredient ⟨toLower s⟩ with
  | none => rw [AddIngredient_absent toLower cm s hl]
  | some v => rw [AddIngredient_present toLower cm s v hl]

theorem RemoveIngredient_MaxCapacity (toLower : String → String) (cm : CoffeeMachine)
    (s : String) : (RemoveIngredient toLower cm s).1.MaxCapacity = cm.MaxCapacity := by
  cases hl : GoMap.lookup cm.Ingredient ⟨toLower s⟩ with
  | none => rw [RemoveIngredient_absent toLower cm s hl]
  | some v => rw [RemoveIngredient_present toLower cm s v hl]

theorem lookup_some_of_mem_keys {κ ν : Type} [DecidableEq κ] (m : GoMap κ ν) (k : κ)
    (h : k ∈ GoMap.keys m) : ∃ v, GoMap.lookup m k = some v := by
  cases hl : GoMap.lookup m k with
  | none => exact absurd h ((GoMap.lookup_eq_none_iff m k).mp hl)
  | some v => exact ⟨v, rfl⟩

/-! ## Lemmas on the low-stock display, the check error and the wrapping debit -/

theorem GoMap.mem_keys_set {κ ν : Type} [DecidableEq κ] (m : GoMap κ ν) (k j : κ) (v : ν) :
    j ∈ GoMap.keys (GoMap.set m k v) ↔ j = k ∨ j ∈ GoMap.keys m := by
  by_cases h : k ∈ GoMap.keys m
  · rw [GoMap.keys_set_of_mem m k v h]
    constructor
    · intro hj
      exact Or.inr hj
    · intro hj
      rcases hj with hj | hj
      · exact hj ▸ h
      · exact hj
  · rw [GoMap.keys_set_of_not_mem m k v h]
    simp only [List.mem_append, List.mem_singleton]
    exact Or.comm

theorem lowLoop_mem_keys (igs low : GoMap Ingredient Nat) (i : Ingredient) :
    i ∈ GoMap.keys
        (igs.foldl (fun low e => if e.2 ≤ 100 then GoMap.set low e.1 e.2 else low) low) ↔
      i ∈ GoMap.keys low ∨ ∃ q, (i, q) ∈ igs ∧ q ≤ 100 := by
  induction igs generalizing low with
  | nil => simp
  | cons e rest ih =>
    obtain ⟨k, v⟩ := e
    simp only [List.foldl_cons, ih, List.mem_cons, Prod.mk.injEq]
    by_cases hv : v ≤ 100
    · simp only [hv, if_true, GoMap.mem_keys_set]
      constructor
      · rintro ((h | h) | ⟨q, hq, hq2⟩)
        · exact Or.inr ⟨v, Or.inl ⟨h, rfl⟩, hv⟩
        · exact Or.inl h
        · exact Or.inr ⟨q, Or.inr hq, hq2⟩
      · rintro (h | ⟨q, (⟨h1, h2⟩ | hq), hq2⟩)
        · exact Or.inl (Or.inr h)
        · exact Or.inl (Or.inl h1)
        · exact Or.inr ⟨q, hq, hq2⟩
    · simp only [hv, if_false]
      constructor
      · rintro (h | ⟨q, hq, hq2⟩)
        · exact Or.inl h
        · exact Or.inr ⟨q, Or.inr hq, hq2⟩
      · rintro (h | ⟨q, (⟨_, h2⟩ | hq), hq2⟩)
        · exact Or.inl h
        · exact absurd (h2 ▸ hq2) hv
        · exact Or.inr ⟨q, hq, hq2⟩

theorem lowIngredients_mem_keys (cm : CoffeeMachine) (i : Ingredient) :
    i ∈ GoMap.keys (lowIngredients cm) ↔ ∃ q, (i, q) ∈ Ingredients cm ∧ q ≤ 100 := by
  unfold lowIngredients
  rw [lowLoop_mem_keys]
  simp [GoMap.keys]

theorem seedLow_thousand :
    (seedInventory 1000 seedBeverages []).foldl
      (fun low e => if e.2 ≤ 100 then GoMap.set low e.1 e.2 else low)
      ([] : GoMap Ingredient Nat) = [] := by
  decide

theorem checkLoop_eq_some (inv : GoMap Ingredient Nat) (bname : String)
    (recipe : GoMap Ingredient Nat) (e : String) (h : checkLoop inv bname recipe = some e) :
    ∃ pre i q post, recipe = pre ++ (i, q) :: post ∧
      (∀ x ∈ pre, x.2 ≤ GoMap.get inv x.1) ∧ GoMap.get inv i < q ∧
      e = "Not enough " ++ i.Name ++ " to make " ++ bname ++ "\n" := by
  induction recipe with
  | nil => simp [checkLoop] at h
  | cons x rest ih =>
    obtain ⟨i, q⟩ := x
    by_cases hs : GoMap.get inv i < q
    · simp only [checkLoop, hs, if_true, Option.some.injEq] at h
      exact ⟨[], i, q, rest, rfl, by simp, hs, h.symm⟩
    · simp only [checkLoop, hs, if_false] at h
      obtain ⟨pre, i2, q2, post, h1, h2, h3, h4⟩ := ih h
      refine ⟨(i, q) :: pre, i2, q2, post, by rw [h1]; rfl, ?_, h3, h4⟩
      intro x hx
      rcases List.mem_cons.mp hx with hx | hx
      · rw [hx]
        exact Nat.le_of_not_lt hs
      · exact h2 x hx

theorem debit_lookup_of_mem (recipe inv : GoMap Ingredient Nat) (hwf : GoMap.WF recipe) :
    ∀ iq ∈ recipe,
      GoMap.lookup (debit inv recipe) iq.1 = some (usub (GoMap.get inv iq.1) iq.2) := by
  induction recipe generalizing inv with
  | nil => simp
  | cons e rest ih =>
    obtain ⟨i, q⟩ := e
    have hnd : i ∉ GoMap.keys rest ∧ GoMap.WF rest := by simpa [GoMap.WF, GoMap.keys] using hwf
    intro iq hiq
    rw [debit_cons]
    rcases List.mem_cons.mp hiq with heq | hin
    · subst heq
      rw [debit_lookup_of_not_mem rest _ _ hnd.1, GoMap.lookup_set_self]
    · have hne : i ≠ iq.1 := fun heq => hnd.1 (heq ▸ List.mem_map.mpr ⟨iq, hin, rfl⟩)
      rw [ih _ hnd.2 iq hin, GoMap.get_set_ne _ _ _ _ hne]

theorem usub_cast (a b : Nat) : ((usub a b : Nat) : Int) = ((a : Int) - (b : Int)) % 2 ^ 64 := by
  unfold usub uintMod
  omega

theorem usub_of_lt (a b : Nat) (hab : a < b) (hb : b < uintMod) :
    usub a b = a + 2 ^ 64 - b := by
  unfold usub uintMod at *
  omega

/-! ## Lemmas on the statements of the pour and on seeding -/

theorem foldl_debit_events (recipe : GoMap Ingredient Nat) (cm : CoffeeMachine)
    (sent : List String) :
    (recipe.map (fun iq => PourEvent.debit iq.1 iq.2)).foldl applyPourEvent (cm, sent) =
      ({ cm with Ingredient := debit cm.Ingredient recipe }, sent) := by
  induction recipe generalizing cm with
  | nil => rfl
  | cons e rest ih =>
    obtain ⟨i, q⟩ := e
    simp only [List.map_cons, List.foldl_cons, applyPourEvent]
    rw [ih, debit_cons]

theorem PourBeverage_eq_events (cm : CoffeeMachine) (b : Beverage) (delay : Bool) :
    PourBeverage cm b delay = (pourEvents b delay).foldl applyPourEvent (cm, []) := by
  unfold pourEvents PourBeverage
  rw [List.foldl_append, foldl_debit_events]
  cases delay <;> rfl

theorem split_after_debits (recipe : GoMap Ingredient Nat) (tail pre post : List PourEvent)
    (msg : String)
    (h : recipe.map (fun iq => PourEvent.debit iq.1 iq.2) ++ tail =
      pre ++ PourEvent.send msg :: post) :
    ∃ mid, pre = recipe.map (fun iq => PourEvent.debit iq.1 iq.2) ++ mid ∧
      tail = mid ++ PourEvent.send msg :: post := by
  induction recipe generalizing pre with
  | nil => exact ⟨pre, rfl, h⟩
  | cons e rest ih =>
    cases pre with
    | nil =>
      simp only [List.map_cons, List.cons_append, List.nil_append, List.cons.injEq] at h
      exact absurd h.1 (by simp)
    | cons x pre2 =>
      simp only [List.map_cons, List.cons_append, List.cons.injEq] at h
      obtain ⟨mid, h1, h2⟩ := ih pre2 h.2
      exact ⟨mid, by rw [h1, ← h.1]; rfl, h2⟩

theorem pourEvents_order (b : Beverage) (delay : Bool) (pre post : List PourEvent)
    (msg : String) (h : pourEvents b delay = pre ++ PourEvent.send msg :: post) :
    (∀ iq ∈ b.ingredients, PourEvent.debit iq.1 iq.2 ∈ pre) ∧
      ∀ e ∈ post, ∀ i q, e ≠ PourEvent.debit i q := by
  obtain ⟨mid, h1, h2⟩ := split_after_debits b.ingredients _ pre post msg h
  refine ⟨?_, ?_⟩
  · intro iq hiq
    rw [h1]
    exact List.mem_append_left _ (List.mem_map.mpr ⟨iq, hiq, rfl⟩)
  · intro e he i q heq
    have hmem : PourEvent.debit i q ∈ mid ++ PourEvent.send msg :: post :=
      List.mem_append_right _ (List.mem_cons_of_mem _ (heq ▸ he))
    rw [← h2] at hmem
    cases delay <;> simp at hmem

theorem pourEvents_sends (b : Beverage) (delay : Bool) :
    (pourEvents b delay).filterMap
        (fun e => match e with
          | PourEvent.send msg => some msg
          | _ => none) =
      ["Serving " ++ b.Name, "Served " ++ b.Name] := by
  unfold pourEvents
  rw [List.filterMap_append]
  have h0 : (b.ingredients.map (fun iq => PourEvent.debit iq.1 iq.2)).filterMap
      (fun e => match e with
        | PourEvent.send msg => some msg
        | _ => none) = [] := by
    induction b.ingredients with
    | nil => rfl
    | cons e rest ih => simp [List.filterMap_cons, ih]
  rw [h0]
  cases delay <;> rfl

theorem seedInventory_eq_foldl (cap : Nat) (bevs : GoMap String Beverage)
    (inv : GoMap Ingredient Nat) :
    seedInventory cap bevs inv =
      (recipeKeys bevs).foldl (fun acc k => GoMap.set acc k cap) inv := by
  unfold seedInventory recipeKeys
  induction bevs generalizing inv with
  | nil => rfl
  | cons nb rest ih =>
    simp only [List.foldl_cons, List.map_cons, List.flatten_cons, List.foldl_append]
    rw [ih]
    simp [GoMap.keys, List.foldl_map]

theorem foldl_set_WF (ks : List Ingredient) (inv : GoMap Ingredient Nat) (cap : Nat)
    (hwf : GoMap.WF inv) : GoMap.WF (ks.foldl (fun acc k => GoMap.set acc k cap) inv) := by
  induction ks generalizing inv with
  | nil => exact hwf
  | cons k rest ih => exact ih _ (GoMap.WF_set inv k cap hwf)

theorem foldl_set_eq (ks : List Ingredient) (inv : GoMap Ingredient Nat) (cap : Nat)
    (heq : ∀ e ∈ inv, e.2 = cap) :
    ∀ e ∈ ks.foldl (fun acc k => GoMap.set acc k cap) inv, e.2 = cap := by
  induction ks generalizing inv with
  | nil => simpa using heq
  | cons k rest ih =>
    simp only [List.foldl_cons]
    apply ih
    intro e he
    rcases GoMap.mem_set _ _ _ _ he with h | h
    · rw [h]
    · exact heq e h

theorem mem_recipeKeys (bevs : GoMap String Beverage) (i : Ingredient) :
    i ∈ recipeKeys bevs ↔ ∃ nb ∈ bevs, i ∈ GoMap.keys nb.2.ingredients := by
  unfold recipeKeys
  simp only [List.mem_flatten, List.mem_map]
  constructor
  · rintro ⟨l, ⟨nb, hnb, rfl⟩, hi⟩
    exact ⟨nb, hnb, hi⟩
  · rintro ⟨nb, hnb, hi⟩
    exact ⟨_, ⟨nb, hnb, rfl⟩, hi⟩

theorem seedBeverages_le_thousand :
    ∀ nb ∈ seedBeverages, ∀ iq ∈ nb.2.ingredients, iq.2 ≤ 1000 := by decide

theorem seedInventory_lookup (cap : Nat) (bevs : GoMap String Beverage) (i : Ingredient) :
    GoMap.lookup (seedInventory cap bevs []) i =
      if i ∈ recipeKeys bevs then some cap else none := by
  rw [seedInventory_eq_foldl, foldl_set_lookup]
  rfl

theorem seedInventory_mem_keys (cap : Nat) (bevs : GoMap String Beverage) (i : Ingredient) :
    i ∈ GoMap.keys (seedInventory cap bevs []) ↔
      ∃ nb ∈ bevs, i ∈ GoMap.keys nb.2.ingredients := by
  rw [← mem_recipeKeys, ← GoMap.lookup_isSome_iff, seedInventory_lookup]
  by_cases h : i ∈ recipeKeys bevs <;> simp [h]

theorem seedInventory_WF (cap : Nat) (bevs : GoMap String Beverage) :
    GoMap.WF (seedInventory cap bevs []) := by
  rw [seedInventory_eq_foldl]
  exact foldl_set_WF _ _ _ List.nodup_nil

theorem seedInventory_values (cap : Nat) (bevs : GoMap String Beverage) :
    ∀ e ∈ seedInventory cap bevs [], e.2 = cap := by
  rw [seedInventory_eq_foldl]
  exact foldl_set_eq _ _ _ (fun e he => absurd he (List.not_mem_nil e))

theorem seedInventory_check (bevs : GoMap String Beverage) (cap : Nat) (bname : String)
    (nb : String × Beverage) (hnb : nb ∈ bevs) (hle : ∀ iq ∈ nb.2.ingredients, iq.2 ≤ cap) :
    checkLoop (seedInventory cap bevs []) bname nb.2.ingredients = none := by
  apply (checkLoop_eq_none_iff _ _ _).mpr
  intro iq hiq
  have hk : iq.1 ∈ recipeKeys bevs :=
    (mem_recipeKeys bevs iq.1).mpr ⟨nb, hnb, List.mem_map.mpr ⟨iq, hiq, rfl⟩⟩
  have hl := seedInventory_lookup cap bevs iq.1
  rw [if_pos hk] at hl
  simpa [GoMap.get, hl] using hle iq hiq

theorem seedBeverages_names_WF : GoMap.WF seedBeverages := by decide

theorem seeded_inventory_facts (n cap : Nat) (bevs : GoMap String Beverage) :
    (∀ i, i ∈ GoMap.keys (Ingredients
          { NumOutlets := n, Beverages := bevs, Ingredient := seedInventory cap bevs [],
            MaxCapacity := cap }) ↔
        ∃ nb ∈ ListBeverages
          { NumOutlets := n, Beverages := bevs, Ingredient := seedInventory cap bevs [],
            MaxCapacity := cap },
          i ∈ GoMap.keys nb.2.ingredients) ∧
      GoMap.WF (Ingredients
        { NumOutlets := n, Beverages := bevs, Ingredient := seedInventory cap bevs [],
          MaxCapacity := cap }) ∧
      ∀ e ∈ Ingredients
        { NumOutlets := n, Beverages := bevs, Ingredient := seedInventory cap bevs [],
          MaxCapacity := cap }, e.2 = cap :=
  ⟨seedInventory_mem_keys cap bevs, seedInventory_WF cap bevs, seedInventory_values cap bevs⟩

theorem seeded_check (n cap : Nat) (bevs : GoMap String Beverage)
    (hle : ∀ nb ∈ bevs, ∀ iq ∈ nb.2.ingredients, iq.2 ≤ cap) :
    ∀ nb ∈ ListBeverages
        { NumOutlets := n, Beverages := bevs, Ingredient := seedInventory cap bevs [],
          MaxCapacity := cap },
      CheckIngredients
        { NumOutlets := n, Beverages := bevs, Ingredient := seedInventory cap bevs [],
          MaxCapacity := cap } nb.2 = none :=
  fun nb hnb => seedInventory_check bevs cap nb.2.Name nb hnb (hle nb hnb)

theorem seeded_catalog_facts (n cap : Nat) (inv : GoMap Ingredient Nat) :
    (ListBeverages
        { NumOutlets := n, Beverages := seedBeverages, Ingredient := inv,
          MaxCapacity := cap }).length = 5 ∧
      GoMap.WF (ListBeverages
        { NumOutlets := n, Beverages := seedBeverages, Ingredient := inv,
          MaxCapacity := cap }) :=
  ⟨rfl, seedBeverages_names_WF⟩

/-! ## Properties of the specification -/

/-- C1: `CheckIngredients` returns no error exactly when every entry `(i, q)` of the recipe
finds at least `q` in the inventory, an ingredient absent from the inventory counting as
quantity `0`. -/
theorem CheckIngredients_nil_iff (cm : CoffeeMachine) (b : Beverage) :
    CheckIngredients cm b = none ↔
      ∀ iq ∈ b.ingredients, iq.2 ≤ (GoMap.lookup cm.Ingredient iq.1).getD 0 :=
  checkLoop_eq_none_iff cm.Ingredient b.Name b.ingredients

/-- Witness of C1: the two checks of the tests, coffee as seeded and coffee asking for 1010
units of sugar syrup. -/
theorem CheckIngredients_nil_iff_witness :
    CheckIngredients newMockMachine coffee = none ∧
      CheckIngredients newMockMachine sweetCoffee ≠ none :=
  ⟨(CheckIngredients_nil_iff newMockMachine coffee).mpr (by decide),
    fun h => absurd ((CheckIngredients_nil_iff newMockMachine sweetCoffee).mp h
      (⟨"sugar syrup"⟩, 1010) (by decide)) (by decide)⟩

/-- C2: when the ingredient check fails, the reservation attempt of `ServeBeverage` (check,
then pour only on success) leaves the inventory exactly as it was: the call returns the
machine untouched and starts no pour, so the inventory is still the same whatever the
scheduler runs afterwards. -/
theorem serveSelected_failed_check (cm : CoffeeMachine) (b : Beverage)
    (hfail : CheckIngredients cm b ≠ none) :
    Ingredients (serveSelected cm b).machine = Ingredients cm ∧
      (serveSelected cm b).started = none ∧
      ∀ (toLower : String → String) (name : String) (ks : List Nat),
        GoMap.lookup (ListBeverages cm) name = some b →
          Ingredients (runOps toLower (System.boot cm)
            (Op.serve name :: ks.map Op.pour)).machine = Ingredients cm := by
  cases hc : CheckIngredients cm b with
  | none => exact absurd hc hfail
  | some e =>
    refine ⟨?_, ?_, ?_⟩
    · simp only [serveSelected, hc]
    · simp only [serveSelected, hc]
    · intro toLower name ks hsel
      have hs := ServeBeverage_of_failed cm name b e hsel hc
      have h1 : applyOp toLower (System.boot cm) (Op.serve name) = System.boot cm := by
        simp only [applyOp, System.boot, hs]
        rfl
      show Ingredients (runOps toLower (applyOp toLower (System.boot cm) (Op.serve name))
        (ks.map Op.pour)).machine = _
      rw [h1, runOps_pours_nil toLower ks (System.boot cm) rfl]
      rfl

/-- Witness of C2 on the seeded test machine and a coffee asking for too much sugar syrup. -/
theorem serveSelected_failed_check_witness :
    CheckIngredients newMockMachine sweetCoffee ≠ none ∧
      Ingredients (serveSelected newMockMachine sweetCoffee).machine =
        Ingredients newMockMachine :=
  ⟨by decide, (serveSelected_failed_check newMockMachine sweetCoffee (by decide)).1⟩

/-- C3: after a successful check, `PourBeverage` leaves every recipe ingredient with its
previous quantity minus the required one, without wrap-around (the required quantity does
not exceed the previous one), and leaves every other ingredient as it was. -/
theorem PourBeverage_after_check (cm : CoffeeMachine) (b : Beverage) (delay : Bool)
    (hr : InRange cm) (hwf : GoMap.WF b.ingredients) (hok : CheckIngredients cm b = none) :
    (∀ iq ∈ b.ingredients,
        iq.2 ≤ GoMap.get cm.Ingredient iq.1 ∧
        GoMap.get (PourBeverage cm b delay).1.Ingredient iq.1 =
          GoMap.get cm.Ingredient iq.1 - iq.2) ∧
      ∀ j, j ∉ GoMap.keys b.ingredients →
        GoMap.lookup (PourBeverage cm b delay).1.Ingredient j = GoMap.lookup cm.Ingredient j := by
  have hle := (checkLoop_eq_none_iff _ _ _).mp hok
  refine ⟨?_, ?_⟩
  · intro iq hiq
    have h := debit_get_of_ok b.ingredients cm.Ingredient hwf hr.2 hle iq hiq
    refine ⟨hle iq hiq, ?_⟩
    show GoMap.get (debit cm.Ingredient b.ingredients) iq.1 = _
    omega
  · intro j hj
    exact debit_lookup_of_not_mem b.ingredients cm.Ingredient j hj

/-- Witness of C3 on the seeded test machine and the catalog beverage "coffee". -/
theorem PourBeverage_after_check_witness :
    InRange newMockMachine ∧ GoMap.WF coffee.ingredients ∧
      CheckIngredients newMockMachine coffee = none ∧
      GoMap.get (PourBeverage newMockMachine coffee false).1.Ingredient ⟨"hot water"⟩ = 950 :=
  ⟨by decide, by decide, by decide,
    ((PourBeverage_after_check newMockMachine coffee false (by decide) (by decide)
      (by decide)).1 (⟨"hot water"⟩, 50) (by decide)).2.trans (by decide)⟩

/-- C4: the bound `q ≤ MaxCapacity` is broken on the machine of `main.go` (five outlets,
capacity 1000, seeded).  After 19 "hot water" served and poured one after the other the
water stands at 50; two more requests then both pass the check before either pour has
debited, and the two debits leave the water at `2 ^ 64 - 50`, above the capacity.  On the
schedule where every pour runs before the next request the bound is kept: after 20 "hot
water" the water stands at 0. -/
theorem inventory_bound_broken :
    GoMap.lookup (Ingredients (runOps asciiLower
        (System.boot (SeedData (NewCoffeeMachine 5 1000))) overdrawRun).machine) ⟨"water"⟩ =
      some (2 ^ 64 - 50) ∧
    (∃ e ∈ Ingredients (runOps asciiLower
        (System.boot (SeedData (NewCoffeeMachine 5 1000))) overdrawRun).machine,
      ¬ e.2 ≤ (runOps asciiLower
        (System.boot (SeedData (NewCoffeeMachine 5 1000))) overdrawRun).machine.MaxCapacity) ∧
    GoMap.lookup (Ingredients (runOps asciiLower
        (System.boot (SeedData (NewCoffeeMachine 5 1000)))
        (List.replicate 19 servedHotWater).flatten).machine) ⟨"water"⟩ = some 50 ∧
    (GoMap.lookup (Ingredients (runOps asciiLower
        (System.boot (SeedData (NewCoffeeMachine 5 1000)))
        (List.replicate 20 servedHotWater).flatten).machine) ⟨"water"⟩ = some 0 ∧
      ∀ e ∈ Ingredients (runOps asciiLower
          (System.boot (SeedData (NewCoffeeMachine 5 1000)))
          (List.replicate 20 servedHotWater).flatten).machine,
        e.2 ≤ 1000) := by
  decide!

/-- C5: `AddIngredient` depends on the name only through its lower-cased form `k`; it returns
true exactly when `k` was absent; on true the entry `k` holds `MaxCapacity` and every other
entry is unchanged; on false the machine is unchanged.  In particular, adding "Milk" and then
"milk" returns false the second time and leaves exactly one "milk" entry. -/
theorem AddIngredient_spec (toLower : String → String) (cm : CoffeeMachine) (s : String) :
    (∀ s2, toLower s2 = toLower s →
        AddIngredient toLower cm s2 = AddIngredient toLower cm s) ∧
      ((AddIngredient toLower cm s).2 = true ↔
        (⟨toLower s⟩ : Ingredient) ∉ GoMap.keys (Ingredients cm)) ∧
      ((AddIngredient toLower cm s).2 = true →
        GoMap.lookup (Ingredients (AddIngredient toLower cm s).1) ⟨toLower s⟩ =
            some cm.MaxCapacity ∧
          ∀ j, j ≠ (⟨toLower s⟩ : Ingredient) →
            GoMap.lookup (Ingredients (AddIngredient toLower cm s).1) j =
              GoMap.lookup (Ingredients cm) j) ∧
      ((AddIngredient toLower cm s).2 = false → (AddIngredient toLower cm s).1 = cm) ∧
      (GoMap.WF cm.Ingredient → toLower "Milk" = "milk" → toLower "milk" = "milk" →
        (AddIngredient toLower (AddIngredient toLower cm "Milk").1 "milk").2 = false ∧
          (GoMap.keys (Ingredients
            (AddIngredient toLower (AddIngredient toLower cm "Milk").1 "milk").1)).count
              ⟨"milk"⟩ = 1) := by
  refine ⟨?_, ?_, ?_, ?_, ?_⟩
  · intro s2 h2
    simp only [AddIngredient, h2]
  · cases hl : GoMap.lookup cm.Ingredient ⟨toLower s⟩ with
    | none =>
      rw [AddIngredient_absent toLower cm s hl]
      simpa [Ingredients] using (GoMap.lookup_eq_none_iff _ _).mp hl
    | some v =>
      rw [AddIngredient_present toLower cm s v hl]
      have hk : (⟨toLower s⟩ : Ingredient) ∈ GoMap.keys cm.Ingredient :=
        (GoMap.lookup_isSome_iff _ _).mp (by simp [hl])
      simpa [Ingredients] using hk
  · cases hl : GoMap.lookup cm.Ingredient ⟨toLower s⟩ with
    | none =>
      rw [AddIngredient_absent toLower cm s hl]
      intro _
      exact ⟨GoMap.lookup_set_self _ _ _,
        fun j hj => GoMap.lookup_set_ne _ _ _ _ (fun h => hj h.symm)⟩
    | some v =>
      rw [AddIngredient_present toLower cm s v hl]
      intro h
      exact absurd h (by simp)
  · cases hl : GoMap.lookup cm.Ingredient ⟨toLower s⟩ with
    | none =>
      rw [AddIngredient_absent toLower cm s hl]
      intro h
      exact absurd h (by simp)
    | some v =>
      rw [AddIngredient_present toLower cm s v hl]
      intro _
      rfl
  · intro hwf hM hm
    have hmem := AddIngredient_lookup_self toLower cm "Milk"
    rw [hM] at hmem
    obtain ⟨v, hv⟩ := lookup_some_of_mem_keys _ _ hmem
    have hv2 : GoMap.lookup (AddIngredient toLower cm "Milk").1.Ingredient ⟨toLower "milk"⟩ =
        some v := by rw [hm]; exact hv
    rw [AddIngredient_present toLower _ "milk" v hv2]
    exact ⟨rfl, List.count_eq_one_of_mem (AddIngredient_WF toLower cm "Milk" hwf) hmem⟩

/-- Witness of C5: on a new machine, "Milk" then "milk" leaves one entry and the second call
returns false. -/
theorem AddIngredient_spec_witness :
    GoMap.WF (NewCoffeeMachine 5 1000).Ingredient ∧ asciiLower "Milk" = "milk" ∧
      asciiLower "milk" = "milk" ∧
      (AddIngredient asciiLower
        (AddIngredient asciiLower (NewCoffeeMachine 5 1000) "Milk").1 "milk").2 = false ∧
      (GoMap.keys (Ingredients (AddIngredient asciiLower
        (AddIngredient asciiLower (NewCoffeeMachine 5 1000) "Milk").1 "milk").1)).count
          ⟨"milk"⟩ = 1 :=
  ⟨by decide, by decide, by decide,
    (AddIngredient_spec asciiLower (NewCoffeeMachine 5 1000) "Milk").2.2.2.2
      (by decide) (by decide) (by decide)⟩

/-- C6: `RemoveIngredient` returns true exactly when the lower-cased name `k` was present; on
true `k` is absent afterwards and every other entry is unchanged; on false the machine is
unchanged. -/
theorem RemoveIngredient_spec (toLower : String → String) (cm : CoffeeMachine) (s : String) :
    ((RemoveIngredient toLower cm s).2 = true ↔
        (⟨toLower s⟩ : Ingredient) ∈ GoMap.keys (Ingredients cm)) ∧
      ((RemoveIngredient toLower cm s).2 = true →
        (⟨toLower s⟩ : Ingredient) ∉
            GoMap.keys (Ingredients (RemoveIngredient toLower cm s).1) ∧
          ∀ j, j ≠ (⟨toLower s⟩ : Ingredient) →
            GoMap.lookup (Ingredients (RemoveIngredient toLower cm s).1) j =
              GoMap.lookup (Ingredients cm) j) ∧
      ((RemoveIngredient toLower cm s).2 = false → (RemoveIngredient toLower cm s).1 = cm) := by
  cases hl : GoMap.lookup cm.Ingredient ⟨toLower s⟩ with
  | none =>
    rw [RemoveIngredient_absent toLower cm s hl]
    have hk := (GoMap.lookup_eq_none_iff _ _).mp hl
    refine ⟨?_, ?_, fun _ => rfl⟩
    · simpa [Ingredients] using hk
    · intro h
      exact absurd h (by simp)
  | some v =>
    rw [RemoveIngredient_present toLower cm s v hl]
    have hk : (⟨toLower s⟩ : Ingredient) ∈ GoMap.keys cm.Ingredient :=
      (GoMap.lookup_isSome_iff _ _).mp (by simp [hl])
    refine ⟨?_, ?_, ?_⟩
    · simpa [Ingredients] using hk
    · intro _
      exact ⟨(GoMap.lookup_eq_none_iff _ _).mp (GoMap.lookup_delete_self _ _),
        fun j hj => GoMap.lookup_delete_ne _ _ _ (fun h => hj h.symm)⟩
    · intro h
      exact absurd h (by simp)

/-- Witness of C6: the removal of `TestCoffeeMachine_RemoveIngredient`. -/
theorem RemoveIngredient_spec_witness :
    (RemoveIngredient asciiLower newMockMachine "coffee syrup").2 = true ∧
      (⟨"coffee syrup"⟩ : Ingredient) ∉
        GoMap.keys (Ingredients (RemoveIngredient asciiLower newMockMachine "coffee syrup").1) :=
  ⟨by decide,
    ((RemoveIngredient_spec asciiLower newMockMachine "coffee syrup").2.1 (by decide)).1⟩

/-- C7: `RefillIngredient` returns true exactly when the lower-cased name `k` was present; on
true `k` holds `MaxCapacity` and every other entry is unchanged; on false the machine is
unchanged, so no entry is created. -/
theorem RefillIngredient_spec (toLower : String → String) (cm : CoffeeMachine) (s : String) :
    ((RefillIngredient toLower cm s).2 = true ↔
        (⟨toLower s⟩ : Ingredient) ∈ GoMap.keys (Ingredients cm)) ∧
      ((RefillIngredient toLower cm s).2 = true →
        GoMap.lookup (Ingredients (RefillIngredient toLower cm s).1) ⟨toLower s⟩ =
            some cm.MaxCapacity ∧
          ∀ j, j ≠ (⟨toLower s⟩ : Ingredient) →
            GoMap.lookup (Ingredients (RefillIngredient toLower cm s).1) j =
              GoMap.lookup (Ingredients cm) j) ∧
      ((RefillIngredient toLower cm s).2 = false → (RefillIngredient toLower cm s).1 = cm) := by
  cases hl : GoMap.lookup cm.Ingredient ⟨toLower s⟩ with
  | none =>
    rw [RefillIngredient_absent toLower cm s hl]
    have hk := (GoMap.lookup_eq_none_iff _ _).mp hl
    refine ⟨?_, ?_, fun _ => rfl⟩
    · simpa [Ingredients] using hk
    · intro h
      exact absurd h (by simp)
  | some v =>
    rw [RefillIngredient_present toLower cm s v hl]
    have hk : (⟨toLower s⟩ : Ingredient) ∈ GoMap.keys cm.Ingredient :=
      (GoMap.lookup_isSome_iff _ _).mp (by simp [hl])
    refine ⟨?_, ?_, ?_⟩
    · simpa [Ingredients] using hk
    · intro _
      exact ⟨GoMap.lookup_set_self _ _ _,
        fun j hj => GoMap.lookup_set_ne _ _ _ _ (fun h => hj h.symm)⟩
    · intro h
      exact absurd h (by simp)

/-- Witness of C7: after one coffee, refilling "coffee syrup" brings it back to 1000. -/
theorem RefillIngredient_spec_witness :
    (RefillIngredient asciiLower (PourBeverage newMockMachine coffee false).1
        "Coffee Syrup").2 = true ∧
      GoMap.lookup (Ingredients (RefillIngredient asciiLower
        (PourBeverage newMockMachine coffee false).1 "Coffee Syrup").1)
          ⟨asciiLower "Coffee Syrup"⟩ = some 1000 :=
  ⟨by decide,
    ((RefillIngredient_spec asciiLower (PourBeverage newMockMachine coffee false).1
      "Coffee Syrup").2.1 (by decide)).1⟩

/-- C8: after `RefillAllIngredients` the inventory holds the same ingredients as before, each
of them at `MaxCapacity` (as a lookup, and entry by entry when keys are distinct), and a
second `RefillAllIngredients` changes nothing. -/
theorem RefillAllIngredients_spec (cm : CoffeeMachine) :
    GoMap.keys (Ingredients (RefillAllIngredients cm)) = GoMap.keys (Ingredients cm) ∧
      (∀ i ∈ GoMap.keys (Ingredients cm),
        GoMap.lookup (Ingredients (RefillAllIngredients cm)) i = some cm.MaxCapacity) ∧
      (GoMap.WF (Ingredients cm) →
        ∀ e ∈ Ingredients (RefillAllIngredients cm), e.2 = cm.MaxCapacity) ∧
      RefillAllIngredients (RefillAllIngredients cm) = RefillAllIngredients cm := by
  have hlk : ∀ i ∈ GoMap.keys cm.Ingredient,
      GoMap.lookup (RefillAllIngredients cm).Ingredient i = some cm.MaxCapacity := by
    intro i hi
    rw [RefillAll_lookup]
    simp [hi]
  refine ⟨RefillAll_keys cm, hlk, ?_, RefillAll_idem cm⟩
  intro hwf e he
  have hwf2 : GoMap.WF (RefillAllIngredients cm).Ingredient := by
    unfold GoMap.WF
    rw [RefillAll_keys]
    exact hwf
  have h1 := GoMap.lookup_of_mem _ hwf2 e.1 e.2 he
  have hk : e.1 ∈ GoMap.keys cm.Ingredient := by
    rw [← RefillAll_keys]
    exact List.mem_map.mpr ⟨e, he, rfl⟩
  rw [hlk e.1 hk] at h1
  exact (Option.some.inj h1).symm

/-- Witness of C8: after one coffee, a refill of everything puts hot water back to 1000. -/
theorem RefillAllIngredients_spec_witness :
    GoMap.WF (Ingredients (PourBeverage newMockMachine coffee false).1) ∧
      ((⟨"hot water"⟩, 1000) : Ingredient × Nat) ∈
        Ingredients (RefillAllIngredients (PourBeverage newMockMachine coffee false).1) ∧
      (1000 : Nat) = (PourBeverage newMockMachine coffee false).1.MaxCapacity :=
  ⟨by decide, by decide,
    (RefillAllIngredients_spec (PourBeverage newMockMachine coffee false).1).2.2.1
      (by decide) (⟨"hot water"⟩, 1000) (by decide)⟩

/-- C9: add, then remove, then add again on the same name: the remove and the second add both
return true, the entry is absent from `Ingredients()` in between, and in the end it is
present with quantity `MaxCapacity`, whatever the machine held before. -/
theorem lifecycle_reset (toLower : String → String) (cm : CoffeeMachine) (s : String) :
    (RemoveIngredient toLower (AddIngredient toLower cm s).1 s).2 = true ∧
      (⟨toLower s⟩ : Ingredient) ∉
        GoMap.keys (Ingredients (RemoveIngredient toLower (AddIngredient toLower cm s).1 s).1) ∧
      (AddIngredient toLower
        (RemoveIngredient toLower (AddIngredient toLower cm s).1 s).1 s).2 = true ∧
      GoMap.lookup (Ingredients (AddIngredient toLower
        (RemoveIngredient toLower (AddIngredient toLower cm s).1 s).1 s).1) ⟨toLower s⟩ =
          some cm.MaxCapacity := by
  obtain ⟨v, hv⟩ := lookup_some_of_mem_keys _ _ (AddIngredient_lookup_self toLower cm s)
  have hcap := AddIngredient_MaxCapacity toLower cm s
  have hrem := RemoveIngredient_present toLower (AddIngredient toLower cm s).1 s v hv
  have habs : GoMap.lookup
      (RemoveIngredient toLower (AddIngredient toLower cm s).1 s).1.Ingredient
      ⟨toLower s⟩ = none := by
    rw [hrem]
    exact GoMap.lookup_delete_self _ _
  have hadd := AddIngredient_absent toLower
    (RemoveIngredient toLower (AddIngredient toLower cm s).1 s).1 s habs
  refine ⟨?_, ?_, ?_, ?_⟩
  · rw [hrem]
  · exact (GoMap.lookup_eq_none_iff _ _).mp habs
  · rw [hadd]
  · rw [hadd]
    show GoMap.lookup (GoMap.set _ _ _) _ = _
    rw [GoMap.lookup_set_self, RemoveIngredient_MaxCapacity, hcap]

/-- Counterexample to C10 as stated: with "milk" removed from the seeded machine, refilling
(all, or the recipe's ingredients one by one) does not make "hot milk" servable; and with an
inventory entry and recipe keyed "Milk", `RefillIngredient("Milk")` refills nothing, since it
looks for "milk". -/
theorem refill_then_check_counterexample :
    ((∀ iq ∈ hotMilk.ingredients, iq.2 ≤ noMilkMachine.MaxCapacity) ∧
        CheckIngredients (RefillAllIngredients noMilkMachine) hotMilk ≠ none ∧
        CheckIngredients (refillRecipe asciiLower noMilkMachine hotMilk) hotMilk ≠ none) ∧
      ((∀ iq ∈ capitalMilk.ingredients,
          iq.2 ≤ capitalMachine.MaxCapacity ∧
            iq.1 ∈ GoMap.keys (Ingredients capitalMachine)) ∧
        CheckIngredients (refillRecipe asciiLower capitalMachine capitalMilk)
          capitalMilk ≠ none) := by
  decide

/-- C10 (amended): when every ingredient of the recipe is present in the inventory and the
recipe asks at most `MaxCapacity` of each, `CheckIngredients` returns no error right after
`RefillAllIngredients`; and also right after `RefillIngredient` on the name of each recipe
ingredient, provided those names are already lower-case. -/
theorem refill_then_check (toLower : String → String) (cm : CoffeeMachine) (b : Beverage)
    (hreq : ∀ iq ∈ b.ingredients, iq.2 ≤ cm.MaxCapacity)
    (hpres : ∀ iq ∈ b.ingredients, iq.1 ∈ GoMap.keys (Ingredients cm)) :
    CheckIngredients (RefillAllIngredients cm) b = none ∧
      ((∀ iq ∈ b.ingredients, toLower iq.1.Name = iq.1.Name) →
        CheckIngredients (refillRecipe toLower cm b) b = none) := by
  refine ⟨?_, ?_⟩
  · apply (checkLoop_eq_none_iff _ _ _).mpr
    intro iq hiq
    have h : GoMap.lookup (RefillAllIngredients cm).Ingredient iq.1 = some cm.MaxCapacity := by
      rw [RefillAll_lookup]
      simp [show iq.1 ∈ GoMap.keys cm.Ingredient from hpres iq hiq]
    simpa [GoMap.get, h] using hreq iq hiq
  · intro hlow
    apply (checkLoop_eq_none_iff _ _ _).mpr
    intro iq hiq
    have h := refillRecipe_full toLower b.Name b.ingredients cm hpres hlow iq hiq
    simpa [GoMap.get, h] using hreq iq hiq

/-- Witness of C10 (amended): the seeded machine after one coffee, and the coffee recipe. -/
theorem refill_then_check_witness :
    (∀ iq ∈ coffee.ingredients,
        iq.2 ≤ (PourBeverage newMockMachine coffee false).1.MaxCapacity) ∧
      (∀ iq ∈ coffee.ingredients,
        iq.1 ∈ GoMap.keys (Ingredients (PourBeverage newMockMachine coffee false).1)) ∧
      (∀ iq ∈ coffee.ingredients, asciiLower iq.1.Name = iq.1.Name) ∧
      CheckIngredients (RefillAllIngredients (PourBeverage newMockMachine coffee false).1)
        coffee = none ∧
      CheckIngredients (refillRecipe asciiLower (PourBeverage newMockMachine coffee false).1
        coffee) coffee = none :=
  ⟨by decide, by decide, by decide,
    (refill_then_check asciiLower (PourBeverage newMockMachine coffee false).1 coffee
      (by decide) (by decide)).1,
    (refill_then_check asciiLower (PourBeverage newMockMachine coffee false).1 coffee
      (by decide) (by decide)).2 (by decide)⟩

/-- C11: the low set of `DisplayLowIngredients` is decided by the fixed threshold 100: an
ingredient is in it exactly when the inventory holds it with a quantity of at most 100, and
the capacity of the machine plays no part.  So the set is empty on a freshly seeded machine of
capacity 1000, an ingredient standing at 80 is in it, and "hot milk" is in it once 92 served
coffees have brought it down to 80. -/
theorem lowIngredients_spec (cm : CoffeeMachine) :
    (∀ i, i ∈ GoMap.keys (lowIngredients cm) ↔ ∃ q, (i, q) ∈ Ingredients cm ∧ q ≤ 100) ∧
      (∀ c, lowIngredients { cm with MaxCapacity := c } = lowIngredients cm) ∧
      (∀ n, lowIngredients (SeedData (NewCoffeeMachine n 1000)) = []) ∧
      (∀ i, (i, 80) ∈ Ingredients cm → i ∈ GoMap.keys (lowIngredients cm)) ∧
      (GoMap.get (Ingredients
          (runOps asciiLower (System.boot newMockMachine) manyCoffees).machine)
          ⟨"hot milk"⟩ = 80 ∧
        (⟨"hot milk"⟩ : Ingredient) ∈ GoMap.keys (lowIngredients
          (runOps asciiLower (System.boot newMockMachine) manyCoffees).machine) ∧
        (runOps asciiLower (System.boot newMockMachine) manyCoffees).pending = []) := by
  refine ⟨lowIngredients_mem_keys cm, fun _ => rfl, ?_, ?_, ?_⟩
  · intro n
    rw [SeedData_New]
    exact seedLow_thousand
  · intro i hi
    exact (lowIngredients_mem_keys cm i).mpr ⟨80, hi, by decide⟩
  · decide!

/-- Witness of C11: a machine whose sugar syrup stands at 80 and whose water stands at 101. -/
theorem lowIngredients_spec_witness :
    ((⟨"sugar syrup"⟩, 80) : Ingredient × Nat) ∈
        Ingredients { teaMachine with Ingredient := [(⟨"water"⟩, 101), (⟨"sugar syrup"⟩, 80)] } ∧
      (⟨"sugar syrup"⟩ : Ingredient) ∈ GoMap.keys (lowIngredients
        { teaMachine with Ingredient := [(⟨"water"⟩, 101), (⟨"sugar syrup"⟩, 80)] }) :=
  ⟨by decide,
    (lowIngredients_spec
      { teaMachine with Ingredient := [(⟨"water"⟩, 101), (⟨"sugar syrup"⟩, 80)] }).2.2.2.1
      ⟨"sugar syrup"⟩ (by decide)⟩

/-- C12: the semaphore does not bound the pours.  `ServeBeverage` releases the slot right after
starting the goroutine, so with any positive number of outlets, after `k` admitted requests
none of whose pours has ended, no slot is held and `k` pours are in progress. -/
theorem outlets_not_bounding (n k : Nat) (hn : 0 < n) :
    runOutlets (newOutlets n) (List.replicate k admittedServe).flatten =
      some { slots := n, held := 0, pouring := k, wg := k } := by
  have step : ∀ (j : Nat) (rest : List OutletStep),
      runOutlets { slots := n, held := 0, pouring := j, wg := j } (admittedServe ++ rest) =
        runOutlets { slots := n, held := 0, pouring := j + 1, wg := j + 1 } rest := by
    intro j rest
    simp [admittedServe, runOutlets, outletStep, hn]
  have gen : ∀ (m j : Nat),
      runOutlets { slots := n, held := 0, pouring := j, wg := j }
          (List.replicate m admittedServe).flatten =
        some { slots := n, held := 0, pouring := j + m, wg := j + m } := by
    intro m
    induction m with
    | zero => intro j; rfl
    | succ m ih =>
      intro j
      rw [List.replicate_succ, List.flatten_cons, step, ih]
      have h : j + 1 + m = j + (m + 1) := by omega
      rw [h]
  have h0 := gen k 0
  simpa [newOutlets] using h0

/-- Witness of C12: one outlet, two admitted requests: two pours in progress, no slot held. -/
theorem outlets_not_bounding_witness :
    0 < 1 ∧
      runOutlets (newOutlets 1) (admittedServe ++ (admittedServe ++ [])) =
        some { slots := 1, held := 0, pouring := 2, wg := 2 } :=
  ⟨by decide, outlets_not_bounding 1 2 (by decide)⟩

/-- C13: the check and the debit of two requests can interleave so that both pass the check.
With 60 units of water and a recipe of 50, the schedule check, check, debit, debit pours both
requests and leaves the water at `2 ^ 64 - 40`, while the schedule check, debit, check pours
one, rejects the other and leaves 10. -/
theorem race_overdraws :
    (runRace tea ⟨teaMachine, .waiting, .waiting⟩
        [.check false, .check true, .debit false, .debit true]).map
        (fun r => (r.first, r.second, Ingredients r.machine)) =
      some (Request.poured, Request.poured, [(⟨"water"⟩, 2 ^ 64 - 40)]) ∧
    (runRace tea ⟨teaMachine, .waiting, .waiting⟩
        [.check false, .debit false, .check true]).map
        (fun r => (r.first, r.second, Ingredients r.machine)) =
      some (Request.poured, Request.rejected, [(⟨"water"⟩, 10)]) := by
  decide

/-- Counterexample to C14 as stated: on the seeded machine without "milk", serving "hot milk"
fails the check, yet `ServeBeverage` returns `nil`; the message goes to standard output. -/
theorem ServeBeverage_check_failed_counterexample :
    GoMap.lookup (ListBeverages noMilkMachine) "hot milk" = some hotMilk ∧
      CheckIngredients noMilkMachine hotMilk = some "Not enough milk to make hot milk\n" ∧
      (ServeBeverage noMilkMachine "hot milk").err = none ∧
      (ServeBeverage noMilkMachine "hot milk").printed =
        ["Not enough milk to make hot milk\n"] := by
  decide

/-- C14 (amended): when the check of the selected beverage fails with error `e`,
`ServeBeverage` prints `e` to standard output and returns `nil` to its caller, and it starts
no pour: the machine (so the inventory) is unchanged, no goroutine is started, so nothing is
sent on the notification channel, and the wait group is not incremented. -/
theorem ServeBeverage_check_failed (cm : CoffeeMachine) (name : String) (b : Beverage)
    (e : String) (hsel : GoMap.lookup (ListBeverages cm) name = some b)
    (hfail : CheckIngredients cm b = some e) :
    (ServeBeverage cm name).err = none ∧ (ServeBeverage cm name).printed = [e] ∧
      (ServeBeverage cm name).machine = cm ∧ (ServeBeverage cm name).sent = [] ∧
      (ServeBeverage cm name).wgAdded = 0 ∧ (ServeBeverage cm name).started = none ∧
      (ServeBeverage cm name).returned = true := by
  rw [ServeBeverage_of_failed cm name b e hsel hfail]
  exact ⟨rfl, rfl, rfl, rfl, rfl, rfl, rfl⟩

/-- Witness of C14 (amended): "hot water" asked from a seeded machine whose water was
removed. -/
theorem ServeBeverage_check_failed_witness :
    GoMap.lookup (ListBeverages (RemoveIngredient asciiLower newMockMachine "water").1)
        "hot water" = some { Name := "hot water", ingredients := [(⟨"water"⟩, 50)] } ∧
      CheckIngredients (RemoveIngredient asciiLower newMockMachine "water").1
        { Name := "hot water", ingredients := [(⟨"water"⟩, 50)] } =
          some "Not enough water to make hot water\n" ∧
      (ServeBeverage (RemoveIngredient asciiLower newMockMachine "water").1 "hot water").sent =
        [] :=
  ⟨by decide, by decide,
    (ServeBeverage_check_failed (RemoveIngredient asciiLower newMockMachine "water").1
      "hot water" { Name := "hot water", ingredients := [(⟨"water"⟩, 50)] }
      "Not enough water to make hot water\n" (by decide) (by decide)).2.2.2.1⟩

/-- Counterexample to C15 as stated: a recipe short of both hot water and sugar syrup gets an
error that names hot water only, and the same recipe met in the other iteration order gets an
error that names sugar syrup only. -/
theorem CheckIngredients_error_counterexample :
    GoMap.get (Ingredients newMockMachine) ⟨"hot water"⟩ < 2000 ∧
      GoMap.get (Ingredients newMockMachine) ⟨"sugar syrup"⟩ < 2000 ∧
      bigCoffeeReversed.ingredients = bigCoffee.ingredients.reverse ∧
      CheckIngredients newMockMachine bigCoffee =
        some "Not enough hot water to make coffee\n" ∧
      CheckIngredients newMockMachine bigCoffeeReversed =
        some "Not enough sugar syrup to make coffee\n" := by
  decide

/-- C15 (amended): `CheckIngredients` fails exactly when some recipe ingredient is short, and
its error then names one ingredient only: the first short one in the iteration order of the
recipe, every entry met before it being sufficient. -/
theorem CheckIngredients_error (cm : CoffeeMachine) (b : Beverage) :
    (CheckIngredients cm b ≠ none ↔
        ∃ iq ∈ b.ingredients, GoMap.get (Ingredients cm) iq.1 < iq.2) ∧
      ∀ e, CheckIngredients cm b = some e →
        ∃ pre i q post, b.ingredients = pre ++ (i, q) :: post ∧
          (∀ x ∈ pre, x.2 ≤ GoMap.get (Ingredients cm) x.1) ∧
          GoMap.get (Ingredients cm) i < q ∧
          e = "Not enough " ++ i.Name ++ " to make " ++ b.Name ++ "\n" := by
  refine ⟨?_, fun e he => checkLoop_eq_some cm.Ingredient b.Name b.ingredients e he⟩
  unfold CheckIngredients Ingredients
  rw [Ne, checkLoop_eq_none_iff]
  constructor
  · intro h
    by_contra hno
    apply h
    intro iq hiq
    by_contra hlt
    exact hno ⟨iq, hiq, Nat.lt_of_not_le hlt⟩
  · rintro ⟨iq, hiq, hlt⟩ hall
    exact absurd (hall iq hiq) (Nat.not_le_of_lt hlt)

/-- Witness of C15 (amended): the failing check of the tests names sugar syrup, the last entry
of the recipe, the three entries before it being sufficient. -/
theorem CheckIngredients_error_witness :
    CheckIngredients newMockMachine sweetCoffee =
        some "Not enough sugar syrup to make coffee\n" ∧
      ∃ pre i q post, sweetCoffee.ingredients = pre ++ (i, q) :: post ∧
        (∀ x ∈ pre, x.2 ≤ GoMap.get (Ingredients newMockMachine) x.1) ∧
        GoMap.get (Ingredients newMockMachine) i < q ∧
        "Not enough sugar syrup to make coffee\n" =
          "Not enough " ++ i.Name ++ " to make " ++ sweetCoffee.Name ++ "\n" :=
  ⟨by decide,
    (CheckIngredients_error newMockMachine sweetCoffee).2
      "Not enough sugar syrup to make coffee\n" (by decide)⟩

/-- C16: for every beverage and both values of the delay flag, `PourBeverage` sends exactly
two messages, "Serving" then "Served" followed by the name of the beverage, and at each send
every debit of the recipe has been made and none remains to be made. -/
theorem PourBeverage_notifications (cm : CoffeeMachine) (b : Beverage) (delay : Bool) :
    (PourBeverage cm b delay).2 = ["Serving " ++ b.Name, "Served " ++ b.Name] ∧
      PourBeverage cm b delay = (pourEvents b delay).foldl applyPourEvent (cm, []) ∧
      (pourEvents b delay).filterMap
          (fun e => match e with
            | PourEvent.send msg => some msg
            | _ => none) =
        ["Serving " ++ b.Name, "Served " ++ b.Name] ∧
      ∀ pre post msg, pourEvents b delay = pre ++ PourEvent.send msg :: post →
        (∀ iq ∈ b.ingredients, PourEvent.debit iq.1 iq.2 ∈ pre) ∧
          ∀ e ∈ post, ∀ i q, e ≠ PourEvent.debit i q :=
  ⟨rfl, PourBeverage_eq_events cm b delay, pourEvents_sends b delay,
    fun pre post msg h => pourEvents_order b delay pre post msg h⟩

/-- Witness of C16: the pour of a hot milk with the delay: the debit of the milk comes before
the first send. -/
theorem PourBeverage_notifications_witness :
    pourEvents hotMilk true =
        [PourEvent.debit ⟨"milk"⟩ 50] ++
          PourEvent.send "Serving hot milk" ::
            [PourEvent.sleep, PourEvent.send "Served hot milk"] ∧
      PourEvent.debit ⟨"milk"⟩ 50 ∈ [PourEvent.debit ⟨"milk"⟩ 50] :=
  ⟨by decide,
    ((PourBeverage_notifications newMockMachine hotMilk true).2.2.2
      [PourEvent.debit ⟨"milk"⟩ 50] [PourEvent.sleep, PourEvent.send "Served hot milk"]
      "Serving hot milk" (by decide)).1 (⟨"milk"⟩, 50) (by decide)⟩

/-- C17: on a freshly seeded machine of capacity 100 every ingredient is full, so none has 10%
or less of its capacity remaining, yet `DisplayLowIngredients` counts all nine as low: its
threshold is the constant 100, not a tenth of `MaxCapacity`. -/
theorem lowIngredients_not_ten_percent :
    (Ingredients (SeedData (NewCoffeeMachine 5 100))).length = 9 ∧
      (∀ e ∈ Ingredients (SeedData (NewCoffeeMachine 5 100)),
        e.2 = (SeedData (NewCoffeeMachine 5 100)).MaxCapacity) ∧
      lowTenPercent (SeedData (NewCoffeeMachine 5 100)) = [] ∧
      lowIngredients (SeedData (NewCoffeeMachine 5 100)) =
        Ingredients (SeedData (NewCoffeeMachine 5 100)) := by
  decide

/-- C18: after `NewCoffeeMachine(n, cap)` and `SeedData` the catalog holds five beverages of
distinct names, the inventory holds exactly the ingredients named by their recipes, once each
and each with quantity `cap`, and with `cap = 1000` the check passes for every beverage of the
catalog. -/
theorem SeedData_servable (n cap : Nat) :
    (ListBeverages (SeedData (NewCoffeeMachine n cap))).length = 5 ∧
      GoMap.WF (ListBeverages (SeedData (NewCoffeeMachine n cap))) ∧
      (∀ i, i ∈ GoMap.keys (Ingredients (SeedData (NewCoffeeMachine n cap))) ↔
        ∃ nb ∈ ListBeverages (SeedData (NewCoffeeMachine n cap)),
          i ∈ GoMap.keys nb.2.ingredients) ∧
      GoMap.WF (Ingredients (SeedData (NewCoffeeMachine n cap))) ∧
      (∀ e ∈ Ingredients (SeedData (NewCoffeeMachine n cap)), e.2 = cap) ∧
      ∀ nb ∈ ListBeverages (SeedData (NewCoffeeMachine n 1000)),
        CheckIngredients (SeedData (NewCoffeeMachine n 1000)) nb.2 = none := by
  rw [SeedData_New, SeedData_New]
  have h1 := seeded_catalog_facts n cap (seedInventory cap seedBeverages [])
  have h2 := seeded_inventory_facts n cap seedBeverages
  have h3 := seeded_check n 1000 seedBeverages seedBeverages_le_thousand
  exact ⟨h1.1, h1.2, h2.1, h2.2.1, h2.2.2, h3⟩

/-- Witness of C18: on the machine of the tests, "ginger syrup" is in the inventory and the
catalog entry "ginger tea" passes the check. -/
theorem SeedData_servable_witness :
    (⟨"ginger syrup"⟩ : Ingredient) ∈ GoMap.keys (Ingredients (SeedData (NewCoffeeMachine 5 1000))) ∧
      CheckIngredients (SeedData (NewCoffeeMachine 5 1000))
        { Name := "ginger tea",
          ingredients := [(⟨"hot water"⟩, 50), (⟨"hot milk"⟩, 10), (⟨"tea leaves syrup"⟩, 10),
                          (⟨"ginger syrup"⟩, 5), (⟨"sugar syrup"⟩, 10)] } = none :=
  ⟨((SeedData_servable 5 1000).2.2.1 ⟨"ginger syrup"⟩).mpr (by decide),
    (SeedData_servable 5 1000).2.2.2.2.2
      ("ginger tea",
        { Name := "ginger tea",
          ingredients := [(⟨"hot water"⟩, 50), (⟨"hot milk"⟩, 10), (⟨"tea leaves syrup"⟩, 10),
                          (⟨"ginger syrup"⟩, 5), (⟨"sugar syrup"⟩, 10)] })
      (by decide)⟩

/-- C19: `PourBeverage` debits without any check and wraps: after it each recipe ingredient
has an entry holding `(old - q) mod 2 ^ 64`, an absent ingredient counting as `old = 0`; so
when `old < q` the entry holds `old + 2 ^ 64 - q`, and an absent ingredient asked for `q > 0`
gets a new entry holding `2 ^ 64 - q`. -/
theorem PourBeverage_wraps (cm : CoffeeMachine) (b : Beverage) (delay : Bool)
    (hwf : GoMap.WF b.ingredients) :
    ∀ iq ∈ b.ingredients,
      (∃ v, GoMap.lookup (Ingredients (PourBeverage cm b delay).1) iq.1 = some v ∧
        (v : Int) = ((GoMap.get (Ingredients cm) iq.1 : Int) - (iq.2 : Int)) % 2 ^ 64) ∧
      (GoMap.get (Ingredients cm) iq.1 < iq.2 → iq.2 < uintMod →
        GoMap.get (Ingredients (PourBeverage cm b delay).1) iq.1 =
          GoMap.get (Ingredients cm) iq.1 + 2 ^ 64 - iq.2) ∧
      (iq.1 ∉ GoMap.keys (Ingredients cm) → 0 < iq.2 → iq.2 < uintMod →
        GoMap.lookup (Ingredients (PourBeverage cm b delay).1) iq.1 =
          some (2 ^ 64 - iq.2)) := by
  intro iq hiq
  have hl : GoMap.lookup (debit cm.Ingredient b.ingredients) iq.1 =
      some (usub (GoMap.get cm.Ingredient iq.1) iq.2) :=
    debit_lookup_of_mem b.ingredients cm.Ingredient hwf iq hiq
  refine ⟨⟨_, hl, usub_cast _ _⟩, ?_, ?_⟩
  · intro hlt hq
    show GoMap.get (debit cm.Ingredient b.ingredients) iq.1 = _
    rw [GoMap.get, hl]
    exact usub_of_lt _ _ hlt hq
  · intro habs hpos hq
    show GoMap.lookup (debit cm.Ingredient b.ingredients) iq.1 = _
    have habs2 : iq.1 ∉ GoMap.keys cm.Ingredient := habs
    have hzero : GoMap.get cm.Ingredient iq.1 = 0 := by
      rw [GoMap.get, (GoMap.lookup_eq_none_iff _ _).mpr habs2]
      rfl
    rw [hl, hzero, usub_of_lt 0 iq.2 hpos hq, Nat.zero_add]

/-- Witness of C19: a hot milk poured on the seeded machine without "milk": the entry "milk"
is created holding `2 ^ 64 - 50`. -/
theorem PourBeverage_wraps_witness :
    GoMap.WF hotMilk.ingredients ∧
      (⟨"milk"⟩ : Ingredient) ∉ GoMap.keys (Ingredients noMilkMachine) ∧
      GoMap.lookup (Ingredients (PourBeverage noMilkMachine hotMilk true).1) ⟨"milk"⟩ =
        some (2 ^ 64 - 50) :=
  ⟨by decide, by decide,
    ((PourBeverage_wraps noMilkMachine hotMilk true (by decide)) (⟨"milk"⟩, 50)
      (by decide)).2.2 (by decide) (by decide) (by decide)⟩

end Coffee
